import Mathlib

/-!
Verification of the MCPL connection multiplexer (`McplConnection`,
src/unnamed/part_000, the version with request timeouts) against its
natural-language specification.

The connection is modelled as an explicit state machine.  Each public API
call, each incoming line, each deadline-timer firing and each close trigger
is an `Event`; `stepT` is the transition function, returning the successor
state together with the list of observable `Effect`s (promise completions,
event-emitter broadcasts, writes to the sink, reader/writer teardown).
This matches the source's concurrency model (spec §5): callbacks run to
completion one at a time, so a run of the connection is a sequence of
atomic steps.
-/

namespace Mcpl

/-! ### JSON values

JSON values as produced by `JSON.parse`.  Numbers are modelled as integers:
every number the connection itself inspects (correlation ids, error codes)
is integral.
-/

inductive Json where
  | null
  | bool (b : Bool)
  | num (n : Int)
  | str (s : String)
  | arr (elems : List Json)
  | obj (fields : List (String × Json))

/-- Property access `o[k]` on a parsed JSON object: `none` models
JavaScript `undefined` (key absent).  Parsed objects have unique keys, so
first-match lookup is exact. -/
def lookupField : List (String × Json) → String → Option Json
  | [], _ => none
  | p :: rest, k => if p.1 = k then some p.2 else lookupField rest k

/-- JavaScript truthiness of a JSON value (used by `if (resp.error)`). -/
def Json.truthy : Json → Bool
  | .null => false
  | .bool b => b
  | .num n => n != 0
  | .str s => s != ""
  | .arr _ => true
  | .obj _ => true

/-- `v[k]` where `v` is any JSON value: only objects have string-keyed
fields, everything else yields `undefined`. -/
def Json.field : Json → String → Option Json
  | .obj fields, k => lookupField fields k
  | _, _ => none

/-! ### Decimal rendering of numbers

`String(id)` on the numeric correlation ids renders them in decimal.
`decDigits` is fuel-indexed so that it is structurally recursive (the fuel
`n + 1` always suffices since `n / 10 < n` for `n ≥ 10`). -/

def decDigits : Nat → Nat → List Char
  | 0, _ => []
  | fuel + 1, n =>
      if n < 10 then [Nat.digitChar n]
      else decDigits fuel (n / 10) ++ [Nat.digitChar (n % 10)]

/-- JavaScript `String(n)` for a natural number: decimal digits. -/
def jsNatString (n : Nat) : String := ⟨decDigits (n + 1) n⟩

/-- JavaScript `String(i)` for an integer. -/
def jsIntString (i : Int) : String :=
  if i < 0 then "-" ++ jsNatString i.natAbs else jsNatString i.toNat

/-- JavaScript `String(v)` for the JSON values a response `id` can hold.
The connection only ever applies this to numbers and strings; the
composite cases follow JavaScript's default conversions loosely and are
never reached by well-formed traffic. -/
def jsString : Json → String
  | .null => "null"
  | .bool b => if b then "true" else "false"
  | .num n => jsIntString n
  | .str s => s
  | .arr _ => ""
  | .obj _ => "[object Object]"

/-! ### Envelope constructors (src/unnamed/part_002, types.ts) -/

def paramsField (params : Option Json) : List (String × Json) :=
  match params with
  | some p => [("params", p)]
  | none => []

def makeRequest (id : Int) (method : String) (params : Option Json) : Json :=
  .obj ([("jsonrpc", .str "2.0"), ("id", .num id), ("method", .str method)] ++
    paramsField params)

def makeNotification (method : String) (params : Option Json) : Json :=
  .obj ([("jsonrpc", .str "2.0"), ("method", .str method)] ++ paramsField params)

def makeResponse (id : Json) (result : Json) : Json :=
  .obj [("jsonrpc", .str "2.0"), ("id", id), ("result", result)]

def makeErrorResponse (id : Json) (code : Int) (message : String) : Json :=
  .obj [("jsonrpc", .str "2.0"), ("id", id),
        ("error", .obj [("code", .num code), ("message", .str message)])]

/-! ### Connection state -/

/-- Errors carried by rejected futures (src/src/errors.ts).
`rpcError` holds the values passed to the `RpcError(code, message)`
constructor; `none` models an `undefined` argument. -/
inductive ConnError where
  | connectionClosed
  | rpcError (code : Option Json) (message : Option Json)

/-- An incoming request/notification handed to consumers (the raw parsed
object, as the source forwards it unmodified). -/
inductive IncomingMessage where
  | request (fields : List (String × Json))
  | notification (fields : List (String × Json))

/-- An armed deadline timer.  The `setTimeout` closure in `sendRequest`
captures the effective `timeoutMs` and the `method` name; `armedAt` records
the time the timer was armed (when the `sendRequest` ran). -/
structure TimerRec where
  callId : Nat
  timeoutMs : Nat
  armedAt : Nat
  method : String

/-- State of one `McplConnection`.  The pending map is an insertion-ordered
string-keyed map (a JS `Map`): each entry maps `String(id)` to the identity
of the call's promise, which is the correlation id itself.  Waiters are the
FIFO list of blocked `nextMessage` callers, identified by caller labels. -/
structure ConnState where
  nextId : Nat
  requestTimeout : Nat
  pending : List (String × Nat)
  incomingQueue : List IncomingMessage
  incomingWaiters : List Nat
  closed : Bool
  timers : List TimerRec

/-- A fresh connection: id counter starts at 1, default request timeout
30000 ms, everything else empty. -/
def ConnState.init : ConnState :=
  { nextId := 1, requestTimeout := 30000, pending := [], incomingQueue := [],
    incomingWaiters := [], closed := false, timers := [] }

/-- Observable effects of one step. -/
inductive Effect where
  | writeLine (j : Json)
  | resolveCall (id : Nat) (value : Option Json)
  | rejectCall (id : Nat) (e : ConnError)
  | emitRequest (fields : List (String × Json))
  | emitNotification (fields : List (String × Json))
  | emitClose
  | resolveWaiter (caller : Nat) (m : IncomingMessage)
  | rejectWaiter (caller : Nat) (e : ConnError)
  | pullReturn (caller : Nat) (m : IncomingMessage)
  | pullThrow (caller : Nat) (e : ConnError)
  | sendThrow (e : ConnError)
  | closeReader
  | destroyWriter

/-! ### JS `Map` operations on the pending table -/

/-- `Map.get`. -/
def lookupPending : List (String × Nat) → String → Option Nat
  | [], _ => none
  | p :: rest, k => if p.1 = k then some p.2 else lookupPending rest k

/-- `Map.delete` (keys are unique, so deleting the first match is exact). -/
def removePending : List (String × Nat) → String → List (String × Nat)
  | [], _ => []
  | p :: rest, k => if p.1 = k then rest else p :: removePending rest k

/-- `Map.set`: replace in place when the key exists, else append
(JS `Map` iteration follows insertion order). -/
def setPending : List (String × Nat) → String → Nat → List (String × Nat)
  | [], k, v => [(k, v)]
  | p :: rest, k, v => if p.1 = k then (k, v) :: rest else p :: setPending rest k v

/-! ### Operations (McplConnection, src/unnamed/part_000) -/

/-- `sendRequest(method, params, timeout?)`.  When closed, throws
`ConnectionClosedError` before allocating an id.  Otherwise allocates
`nextId`, registers the pending call under `String(id)`, arms a deadline
timer when the effective timeout is positive, and writes the envelope.
`now` is the instant the call runs (recorded in the timer). -/
def sendRequest (st : ConnState) (now : Nat) (method : String)
    (params : Option Json) (timeout : Option Nat) : ConnState × List Effect :=
  if st.closed then (st, [.sendThrow .connectionClosed])
  else
    let id := st.nextId
    let request := makeRequest id method params
    let timeoutMs := timeout.getD st.requestTimeout
    { st with
        nextId := id + 1,
        pending := setPending st.pending (jsNatString id) id,
        timers :=
          if timeoutMs > 0 then
            st.timers ++ [⟨id, timeoutMs, now, method⟩]
          else st.timers }
    |> fun st' => (st', [.writeLine request])

/-- `sendNotification`: silent no-op when closed, else one framed write. -/
def sendNotification (st : ConnState) (method : String) (params : Option Json) :
    ConnState × List Effect :=
  if st.closed then (st, [])
  else (st, [.writeLine (makeNotification method params)])

/-- `sendResponse`: silent no-op when closed, else one framed write. -/
def sendResponse (st : ConnState) (id : Json) (result : Json) :
    ConnState × List Effect :=
  if st.closed then (st, [])
  else (st, [.writeLine (makeResponse id result)])

/-- `sendError`: silent no-op when closed, else one framed write. -/
def sendError (st : ConnState) (id : Json) (code : Int) (message : String) :
    ConnState × List Effect :=
  if st.closed then (st, [])
  else (st, [.writeLine (makeErrorResponse id code message)])

/-- `nextMessage()`: drain the queue first; then fail if closed; otherwise
register a waiter.  `caller` labels the invoking pull caller. -/
def nextMessage (st : ConnState) (caller : Nat) : ConnState × List Effect :=
  match st.incomingQueue with
  | queued :: rest => ({ st with incomingQueue := rest }, [.pullReturn caller queued])
  | [] =>
      if st.closed then (st, [.pullThrow caller .connectionClosed])
      else ({ st with incomingWaiters := st.incomingWaiters ++ [caller] }, [])

/-- `String(resp.id)`: the pending-table key a response correlates under
(`String(undefined)` is `"undefined"` when the field is absent). -/
def respKey (fields : List (String × Json)) : String :=
  match lookupField fields "id" with
  | some v => jsString v
  | none => "undefined"

/-- `routeResponse(resp)`: look up `String(resp.id)`; absent entries make
the whole call a no-op.  A found entry is deleted, then its wrapped
resolve/reject runs `cleanup()` (clear the timer, delete the key again —
a no-op, the key is already gone) and completes the future: reject with
`RpcError(error.code, error.message)` when `resp.error` is truthy, else
resolve with `resp.result`. -/
def routeResponse (st : ConnState) (fields : List (String × Json)) :
    ConnState × List Effect :=
  let key := respKey fields
  match lookupPending st.pending key with
  | none => (st, [])
  | some cid =>
      let st' := { st with
        pending := removePending (removePending st.pending key) (jsNatString cid),
        timers := st.timers.filter (fun r => r.callId ≠ cid) }
      match lookupField fields "error" with
      | some e =>
          if e.truthy then
            (st', [.rejectCall cid (.rpcError (e.field "code") (e.field "message"))])
          else (st', [.resolveCall cid (lookupField fields "result")])
      | none => (st', [.resolveCall cid (lookupField fields "result")])

/-- The category-matched broadcast (`this.emit('request', …)` or
`this.emit('notification', …)`), which synchronously invokes every
listener currently registered for that category. -/
def broadcastOf : IncomingMessage → Effect
  | .request r => .emitRequest r
  | .notification n => .emitNotification n

/-- `routeIncoming(msg)`: broadcast on the matching event category, then
hand the message to the oldest blocked puller if one exists, else append
it to the FIFO queue. -/
def routeIncoming (st : ConnState) (msg : IncomingMessage) :
    ConnState × List Effect :=
  match st.incomingWaiters with
  | [] => ({ st with incomingQueue := st.incomingQueue ++ [msg] }, [broadcastOf msg])
  | w :: rest =>
      ({ st with incomingWaiters := rest }, [broadcastOf msg, .resolveWaiter w msg])

/-- `msg.id != null` (present and neither `null` nor `undefined`). -/
def hasIdB (fields : List (String × Json)) : Bool :=
  match lookupField fields "id" with
  | some .null => false
  | some _ => true
  | none => false

/-- `typeof msg.method === 'string'`. -/
def hasMethodB (fields : List (String × Json)) : Bool :=
  match lookupField fields "method" with
  | some (.str _) => true
  | _ => false

/-- `'result' in msg`. -/
def hasResultB (fields : List (String × Json)) : Bool :=
  (lookupField fields "result").isSome

/-- `'error' in msg`. -/
def hasErrorB (fields : List (String × Json)) : Bool :=
  (lookupField fields "error").isSome

/-- `handleParsedMessage(msg)`: the message classifier. -/
def handleParsedMessage (st : ConnState) (fields : List (String × Json)) :
    ConnState × List Effect :=
  if hasIdB fields && (hasResultB fields || hasErrorB fields) then
    routeResponse st fields
  else if hasIdB fields && hasMethodB fields then
    routeIncoming st (.request fields)
  else if hasMethodB fields && !hasIdB fields then
    routeIncoming st (.notification fields)
  else (st, [])

/-- The `'line'` handler: `none` models a line whose `JSON.parse` threw
(the exception is caught and the line ignored); a parsed non-object value
has no string-keyed properties, so every shape test fails and it is
dropped (literal `null` throws on property access inside the same `try`,
with the same outcome). -/
def handleLine (st : ConnState) (parsed : Option Json) : ConnState × List Effect :=
  match parsed with
  | some (.obj fields) => handleParsedMessage st fields
  | _ => (st, [])

/-- The deadline timer for `callId` fires.  A cleared timer never fires
(the `none` branch is unreachable for valid traces).  The handler checks
that the pending entry still exists before rejecting; the rejection
message is built from the closure-captured `timeoutMs` and `method`. -/
def timerFire (st : ConnState) (callId : Nat) : ConnState × List Effect :=
  match st.timers.find? (fun r => r.callId = callId) with
  | none => (st, [])
  | some rec =>
      let st1 := { st with timers := st.timers.filter (fun r => r.callId ≠ callId) }
      match lookupPending st1.pending (jsNatString callId) with
      | none => (st1, [])
      | some cid =>
          ({ st1 with pending := removePending st1.pending (jsNatString callId) },
           [.rejectCall cid (.rpcError (some (.num (-32000)))
              (some (.str ("Request timed out after " ++ toString rec.timeoutMs ++
                "ms: " ++ rec.method))))])

/-- `handleClose()`: the idempotent close coordinator.  On first trigger:
set the closed flag; reject every pending call with `ConnectionClosedError`
(each wrapped reject clears that call's timer and deletes its entry) and
clear the table; reject every waiter and clear the waiter list; notify
close observers.  The incoming queue is left intact. -/
def handleClose (st : ConnState) : ConnState × List Effect :=
  if st.closed then (st, [])
  else
    ({ st with
        closed := true,
        pending := [],
        timers := st.timers.filter
          (fun r => !(st.pending.any (fun p => p.2 == r.callId))),
        incomingWaiters := [] },
     st.pending.map (fun p => Effect.rejectCall p.2 .connectionClosed) ++
       st.incomingWaiters.map (fun w => Effect.rejectWaiter w .connectionClosed) ++
       [.emitClose])

/-- `close()`: no-op when already closed; otherwise run the close
coordinator, then close the readline interface and destroy the writer. -/
def close (st : ConnState) : ConnState × List Effect :=
  if st.closed then (st, [])
  else
    let r := handleClose st
    (r.1, r.2 ++ [.closeReader, .destroyWriter])

/-! ### Traces -/

/-- One schedulable callback of the connection. -/
inductive Event where
  | evSendRequest (method : String) (params : Option Json) (timeout : Option Nat)
  | evSendNotification (method : String) (params : Option Json)
  | evSendResponse (id : Json) (result : Json)
  | evSendError (id : Json) (code : Int) (message : String)
  | evNextMessage (caller : Nat)
  | evLine (parsed : Option Json)
  | evTimerFire (callId : Nat)
  | evClose
  | evEndOfStream

/-- The transition function.  `now` is the instant the callback runs (only
`sendRequest` reads it, to record when its timer was armed). -/
def stepT (st : ConnState) (now : Nat) : Event → ConnState × List Effect
  | .evSendRequest method params timeout => sendRequest st now method params timeout
  | .evSendNotification method params => sendNotification st method params
  | .evSendResponse id result => sendResponse st id result
  | .evSendError id code message => sendError st id code message
  | .evNextMessage caller => nextMessage st caller
  | .evLine parsed => handleLine st parsed
  | .evTimerFire callId => timerFire st callId
  | .evClose => close st
  | .evEndOfStream => handleClose st

/-- Run a timestamped event list, accumulating effects in order. -/
def runT (st : ConnState) : List (Nat × Event) → ConnState × List Effect
  | [] => (st, [])
  | (t, e) :: es =>
      let r := stepT st t e
      let r2 := runT r.1 es
      (r2.1, r.2 ++ r2.2)

/-- Trace validity: timestamps never decrease, and a deadline timer fires
only while armed and no earlier than `armedAt + timeoutMs` (the `setTimeout`
contract: callbacks may run late, never early).  `now` is the time of the
previous event. -/
def validB (st : ConnState) (now : Nat) : List (Nat × Event) → Bool
  | [] => true
  | (t, e) :: rest =>
      (now ≤ t : Bool) &&
      (match e with
       | .evTimerFire callId =>
           match st.timers.find? (fun r => r.callId = callId) with
           | some rec => (rec.armedAt + rec.timeoutMs ≤ t : Bool)
           | none => false
       | _ => true) &&
      validB (stepT st t e).1 t rest

/-! ### Observation helpers -/

/-- Number of completions (resolve or reject) of the future of call `id`
in an effect list. -/
def completionsFor (id : Nat) (effs : List Effect) : Nat :=
  (effs.filter (fun e => match e with
    | .resolveCall i _ => i == id
    | .rejectCall i _ => i == id
    | _ => false)).length

/-- Number of entries for call `id` in a pending table. -/
def cntId (l : List (String × Nat)) (id : Nat) : Nat :=
  (l.filter (fun p => p.2 == id)).length

/-- Number of pending-table entries for call `id`. -/
def countP (st : ConnState) (id : Nat) : Nat := cntId st.pending id

/-- `1` when `a ≤ id < b`, else `0`: whether `id` lies in the window of
correlation ids allocated between two counter values. -/
def allocCount (a b id : Nat) : Nat := if a ≤ id ∧ id < b then 1 else 0

/-- The requests/notifications broadcast to subscribers, in effect order. -/
def emittedOf (effs : List Effect) : List IncomingMessage :=
  effs.filterMap (fun e => match e with
    | .emitRequest r => some (.request r)
    | .emitNotification n => some (.notification n)
    | _ => none)

/-- The messages delivered to `nextMessage` callers (immediately from the
queue, or by resolving a blocked waiter), in effect order. -/
def pullDelivered (effs : List Effect) : List IncomingMessage :=
  effs.filterMap (fun e => match e with
    | .pullReturn _ m => some m
    | .resolveWaiter _ m => some m
    | _ => none)

/-- Classification of one event, independent of connection state: the
incoming message it carries, if any.  Mirrors the classifier's shape tests
on the parsed object. -/
def classifyEvent : Event → Option IncomingMessage
  | .evLine (some (.obj fields)) =>
      if hasIdB fields && (hasResultB fields || hasErrorB fields) then none
      else if hasIdB fields && hasMethodB fields then some (.request fields)
      else if hasMethodB fields && !hasIdB fields then some (.notification fields)
      else none
  | _ => none

/-- The requests/notifications classified from a trace, in arrival order. -/
def classifiedOf (es : List (Nat × Event)) : List IncomingMessage :=
  es.filterMap (fun te => classifyEvent te.2)

/-! ### Decimal rendering is injective

Distinct correlation ids occupy distinct keys of the pending map. -/

theorem decDigits_fuel_irrel (n : Nat) :
    ∀ f g, n < f → n < g → decDigits f n = decDigits g n := by
  induction n using Nat.strong_induction_on with
  | _ n ih =>
    intro f g hf hg
    match f, g with
    | f + 1, g + 1 =>
      by_cases h : n < 10
      · simp [decDigits, h]
      · have hlt : n / 10 < n := Nat.div_lt_self (by omega) (by omega)
        simp only [decDigits, if_neg h]
        rw [ih (n / 10) hlt f g (by omega) (by omega)]

theorem decDigits_ne_nil (f n : Nat) (hf : 0 < f) : decDigits f n ≠ [] := by
  match f with
  | f + 1 =>
    by_cases h : n < 10 <;> simp [decDigits, h]

theorem decDigits_length_ge_two (f n : Nat) (hn : 10 ≤ n) (hf : n < f) :
    2 ≤ (decDigits f n).length := by
  match f with
  | f + 1 =>
    simp only [decDigits, if_neg (by omega : ¬ n < 10), List.length_append,
      List.length_cons, List.length_nil]
    have := decDigits_ne_nil f (n / 10) (by omega)
    have : 0 < (decDigits f (n / 10)).length := List.length_pos.mpr this
    omega

theorem digitChar_inj : ∀ a, a < 10 → ∀ b, b < 10 →
    Nat.digitChar a = Nat.digitChar b → a = b := by decide

theorem jsNatString_inj : ∀ a b : Nat, jsNatString a = jsNatString b → a = b := by
  intro a
  induction a using Nat.strong_induction_on with
  | _ a ih =>
    intro b h
    have hd : decDigits (a + 1) a = decDigits (b + 1) b :=
      congrArg String.data h
    by_cases ha : a < 10 <;> by_cases hb : b < 10
    · simp only [decDigits, if_pos ha, if_pos hb, List.cons.injEq, and_true] at hd
      exact digitChar_inj a ha b hb hd
    · exfalso
      have h2 := decDigits_length_ge_two (b + 1) b (by omega) (by omega)
      rw [← hd] at h2
      simp [decDigits, if_pos ha] at h2
    · exfalso
      have h2 := decDigits_length_ge_two (a + 1) a (by omega) (by omega)
      rw [hd] at h2
      simp [decDigits, if_pos hb] at h2
    · simp only [decDigits, if_neg ha, if_neg hb] at hd
      have hsplit := List.append_inj' hd (by simp)
      have hmod : a % 10 = b % 10 :=
        digitChar_inj (a % 10) (by omega) (b % 10) (by omega)
          (by simpa using hsplit.2)
      have hpre : jsNatString (a / 10) = jsNatString (b / 10) := by
        apply String.ext
        show decDigits (a / 10 + 1) (a / 10) = decDigits (b / 10 + 1) (b / 10)
        have h1 : decDigits (a / 10 + 1) (a / 10) = decDigits a (a / 10) :=
          decDigits_fuel_irrel (a / 10) (a / 10 + 1) a (by omega)
            (Nat.div_lt_self (by omega) (by omega))
        have h2 : decDigits (b / 10 + 1) (b / 10) = decDigits b (b / 10) :=
          decDigits_fuel_irrel (b / 10) (b / 10 + 1) b (by omega)
            (Nat.div_lt_self (by omega) (by omega))
        rw [h1, h2, hsplit.1]
      have hdiv : a / 10 = b / 10 :=
        ih (a / 10) (Nat.div_lt_self (by omega) (by omega)) (b / 10) hpre
      omega

/-! ### Pending-map lemmas -/

theorem lookupPending_eq_none {l : List (String × Nat)} {k : String}
    (h : ∀ p ∈ l, p.1 ≠ k) : lookupPending l k = none := by
  induction l with
  | nil => rfl
  | cons p rest ih =>
    simp only [lookupPending, if_neg (h p (by simp))]
    exact ih (fun q hq => h q (by simp [hq]))

theorem removePending_id {l : List (String × Nat)} {k : String}
    (h : ∀ p ∈ l, p.1 ≠ k) : removePending l k = l := by
  induction l with
  | nil => rfl
  | cons p rest ih =>
    simp only [removePending, if_neg (h p (by simp))]
    rw [ih (fun q hq => h q (by simp [hq]))]

theorem setPending_append {l : List (String × Nat)} {k : String} {v : Nat}
    (h : ∀ p ∈ l, p.1 ≠ k) : setPending l k v = l ++ [(k, v)] := by
  induction l with
  | nil => rfl
  | cons p rest ih =>
    simp only [setPending, if_neg (h p (by simp)), List.cons_append]
    rw [ih (fun q hq => h q (by simp [hq]))]

theorem lookup_split {l : List (String × Nat)} {k : String} {c : Nat}
    (h : lookupPending l k = some c) :
    ∃ l1 l2, l = l1 ++ (k, c) :: l2 ∧ removePending l k = l1 ++ l2 ∧
      ∀ p ∈ l1, p.1 ≠ k := by
  induction l with
  | nil => simp [lookupPending] at h
  | cons p rest ih =>
    obtain ⟨k', v⟩ := p
    by_cases hk : k' = k
    · simp only [lookupPending, if_pos hk] at h
      refine ⟨[], rest, ?_, ?_, by simp⟩
      · simp only [List.nil_append, List.cons.injEq, and_true]
        simp only [Option.some.injEq] at h
        simp [hk, h]
      · simp [removePending, hk]
    · simp only [lookupPending, if_neg hk] at h
      obtain ⟨l1, l2, he, hr, hne⟩ := ih h
      refine ⟨(k', v) :: l1, l2, by simp [he], ?_, ?_⟩
      · simp [removePending, if_neg hk, hr]
      · intro q hq
        rcases List.mem_cons.mp hq with hq1 | hq2
        · simpa [hq1] using hk
        · exact hne q hq2

theorem cntId_middle (l1 l2 : List (String × Nat)) (k : String) (c id : Nat) :
    cntId (l1 ++ (k, c) :: l2) id = cntId (l1 ++ l2) id + (if c = id then 1 else 0) := by
  simp only [cntId, List.filter_append, List.filter_cons, List.length_append]
  by_cases h : c = id <;> simp [h] <;> omega

theorem cntId_append (l1 l2 : List (String × Nat)) (id : Nat) :
    cntId (l1 ++ l2) id = cntId l1 id + cntId l2 id := by
  simp [cntId, List.filter_append]

theorem completionsFor_append (id : Nat) (a b : List Effect) :
    completionsFor id (a ++ b) = completionsFor id a + completionsFor id b := by
  simp [completionsFor, List.filter_append]

theorem completionsFor_pending_rejects (id : Nat) (l : List (String × Nat)) :
    completionsFor id (l.map (fun p => Effect.rejectCall p.2 .connectionClosed))
      = cntId l id := by
  induction l with
  | nil => rfl
  | cons p rest ih =>
    simp only [List.map_cons, completionsFor, cntId, List.filter_cons] at *
    by_cases h : p.2 = id <;> simp [h, ih]

theorem completionsFor_waiter_rejects (id : Nat) (ws : List Nat) :
    completionsFor id (ws.map (fun w => Effect.rejectWaiter w .connectionClosed))
      = 0 := by
  induction ws with
  | nil => rfl
  | cons w rest ih => simpa [completionsFor, List.filter_cons] using ih

theorem allocCount_trans {a b c : Nat} (hab : a ≤ b) (hbc : b ≤ c) (id : Nat) :
    allocCount a b id + allocCount b c id = allocCount a c id := by
  simp only [allocCount]
  split_ifs <;> omega

theorem allocCount_self (a id : Nat) : allocCount a a id = 0 := by
  unfold allocCount
  split_ifs with h <;> omega

theorem completionsFor_resolve (id cid : Nat) (v : Option Json) :
    completionsFor id [Effect.resolveCall cid v] = if cid = id then 1 else 0 := by
  by_cases h : cid = id
  · simp [completionsFor, List.filter, h]
  · have hb : (cid == id) = false := by simpa using h
    simp [completionsFor, List.filter, hb, h]

theorem completionsFor_reject (id cid : Nat) (e : ConnError) :
    completionsFor id [Effect.rejectCall cid e] = if cid = id then 1 else 0 := by
  by_cases h : cid = id
  · simp [completionsFor, List.filter, h]
  · have hb : (cid == id) = false := by simpa using h
    simp [completionsFor, List.filter, hb, h]

/-! ### The connection invariant

What stays true of a connection state across every step: the id counter
started at 1; every pending entry sits under the key `String(id)` of an
already-allocated id; distinct calls occupy distinct entries; a closed
connection holds no pending calls. -/

structure WF (st : ConnState) : Prop where
  one_le : 1 ≤ st.nextId
  entries : ∀ p ∈ st.pending, p.1 = jsNatString p.2 ∧ 1 ≤ p.2 ∧ p.2 < st.nextId
  nodupIds : (st.pending.map Prod.snd).Nodup
  closed_pending : st.closed = true → st.pending = []

theorem wf_init : WF ConnState.init := by
  refine ⟨by simp [ConnState.init], ?_, ?_, ?_⟩ <;> simp [ConnState.init]

/-- Dissecting a successful pending-table lookup: the table splits around
the found entry, removal removes exactly it, its key is `String(callId)`,
no other entry shadows that key, and the per-id entry counts drop by one
exactly at the found call. -/
theorem remove_one {st : ConnState} (hwf : WF st) {k : String} {cid : Nat}
    (h : lookupPending st.pending k = some cid) :
    ∃ l1 l2, st.pending = l1 ++ (k, cid) :: l2 ∧
      removePending st.pending k = l1 ++ l2 ∧
      k = jsNatString cid ∧ cid < st.nextId ∧ 1 ≤ cid ∧
      (∀ p ∈ l1 ++ l2, p.1 ≠ jsNatString cid) ∧
      (∀ id, cntId st.pending id = cntId (l1 ++ l2) id + (if cid = id then 1 else 0)) ∧
      (∀ p ∈ l1 ++ l2, p.1 = jsNatString p.2 ∧ 1 ≤ p.2 ∧ p.2 < st.nextId) ∧
      ((l1 ++ l2).map Prod.snd).Nodup := by
  obtain ⟨l1, l2, he, hr, _⟩ := lookup_split h
  have hmem : (k, cid) ∈ st.pending := by rw [he]; simp
  obtain ⟨hk, h1, h2⟩ := hwf.entries _ hmem
  have hnd : ((l1 ++ l2).map Prod.snd).Nodup ∧ cid ∉ (l1 ++ l2).map Prod.snd := by
    have := hwf.nodupIds
    rw [he] at this
    rw [List.map_append, List.map_cons] at this
    rw [List.nodup_middle] at this
    rw [List.nodup_cons] at this
    exact ⟨by simpa [List.map_append] using this.2,
           by simpa [List.map_append] using this.1⟩
  refine ⟨l1, l2, he, hr, hk, h2, h1, ?_, ?_, ?_, hnd.1⟩
  · intro p hp hkey
    have hsnd : p.2 ≠ cid := by
      intro hc
      exact hnd.2 (by
        rw [← hc]
        exact List.mem_map_of_mem Prod.snd hp)
    have hpe : p.1 = jsNatString p.2 := by
      have hp' : p ∈ st.pending := by
        rw [he]
        rcases List.mem_append.mp hp with h' | h'
        · exact List.mem_append.mpr (Or.inl h')
        · exact List.mem_append.mpr (Or.inr (List.mem_cons_of_mem _ h'))
      exact (hwf.entries _ hp').1
    exact hsnd (jsNatString_inj _ _ (hpe ▸ hkey))
  · intro id
    rw [he]
    exact cntId_middle l1 l2 k cid id
  · intro p hp
    have hp' : p ∈ st.pending := by
      rw [he]
      rcases List.mem_append.mp hp with h' | h'
      · exact List.mem_append.mpr (Or.inl h')
      · exact List.mem_append.mpr (Or.inr (List.mem_cons_of_mem _ h'))
    exact hwf.entries _ hp'

/-! ### Per-operation counting and invariant preservation -/


theorem routeResponse_spec (st : ConnState) (hwf : WF st)
    (fields : List (String × Json)) :
    WF (routeResponse st fields).1 ∧
    (routeResponse st fields).1.nextId = st.nextId ∧
    (routeResponse st fields).1.closed = st.closed ∧
    ∀ id, completionsFor id (routeResponse st fields).2 +
        countP (routeResponse st fields).1 id = countP st id := by
  cases hl : lookupPending st.pending (respKey fields) with
  | none =>
    have hres : routeResponse st fields = (st, []) := by
      simp only [routeResponse, hl]
    rw [hres]
    exact ⟨hwf, rfl, rfl, fun id => by simp [completionsFor]⟩
  | some cid =>
    obtain ⟨l1, l2, he, hr, hk, hlt, hge, hneq, hcnt, hent, hnd⟩ := remove_one hwf hl
    have hpend2 : removePending (removePending st.pending (respKey fields))
        (jsNatString cid) = l1 ++ l2 := by
      rw [hr]
      exact removePending_id hneq
    have hwf' : WF { st with
        pending := l1 ++ l2,
        timers := st.timers.filter (fun r => r.callId ≠ cid) } := by
      refine ⟨hwf.one_le, hent, hnd, ?_⟩
      intro hc
      rw [hwf.closed_pending hc] at hl
      simp [lookupPending] at hl
    have hcount : ∀ id, (if cid = id then 1 else 0) + cntId (l1 ++ l2) id
        = countP st id := by
      intro id
      rw [countP, hcnt id]
      omega
    cases herr : lookupField fields "error" with
    | none =>
      have hres : routeResponse st fields =
          ({ st with
              pending := l1 ++ l2,
              timers := st.timers.filter (fun r => r.callId ≠ cid) },
           [.resolveCall cid (lookupField fields "result")]) := by
        simp only [routeResponse, hl, herr, hpend2]
      rw [hres]
      refine ⟨hwf', rfl, rfl, ?_⟩
      intro id
      rw [completionsFor_resolve id cid]
      exact hcount id
    | some ev =>
      by_cases ht : ev.truthy
      · have hres : routeResponse st fields =
            ({ st with
                pending := l1 ++ l2,
                timers := st.timers.filter (fun r => r.callId ≠ cid) },
             [.rejectCall cid (.rpcError (ev.field "code") (ev.field "message"))]) := by
          simp only [routeResponse, hl, herr, hpend2, if_pos ht]
        rw [hres]
        refine ⟨hwf', rfl, rfl, ?_⟩
        intro id
        rw [completionsFor_reject id cid]
        exact hcount id
      · have hres : routeResponse st fields =
            ({ st with
                pending := l1 ++ l2,
                timers := st.timers.filter (fun r => r.callId ≠ cid) },
             [.resolveCall cid (lookupField fields "result")]) := by
          simp only [routeResponse, hl, herr, hpend2, if_neg ht]
        rw [hres]
        refine ⟨hwf', rfl, rfl, ?_⟩
        intro id
        rw [completionsFor_resolve id cid]
        exact hcount id

theorem timerFire_spec (st : ConnState) (hwf : WF st) (callId : Nat) :
    WF (timerFire st callId).1 ∧
    (timerFire st callId).1.nextId = st.nextId ∧
    (timerFire st callId).1.closed = st.closed ∧
    ∀ id, completionsFor id (timerFire st callId).2 +
        countP (timerFire st callId).1 id = countP st id := by
  cases hf : st.timers.find? (fun r => r.callId = callId) with
  | none =>
    have hres : timerFire st callId = (st, []) := by
      simp only [timerFire, hf]
    rw [hres]
    exact ⟨hwf, rfl, rfl, fun id => by simp [completionsFor]⟩
  | some rec =>
    cases hl : lookupPending st.pending (jsNatString callId) with
    | none =>
      have hres : timerFire st callId =
          ({ st with timers := st.timers.filter (fun r => r.callId ≠ callId) },
           []) := by
        simp only [timerFire, hf, hl]
      rw [hres]
      refine ⟨⟨hwf.one_le, hwf.entries, hwf.nodupIds, hwf.closed_pending⟩,
        rfl, rfl, fun id => Nat.zero_add (countP st id)⟩
    | some cid =>
      obtain ⟨l1, l2, he, hr, hk, hlt, hge, hneq, hcnt, hent, hnd⟩ := remove_one hwf hl
      have hres : timerFire st callId =
          ({ st with
              pending := l1 ++ l2,
              timers := st.timers.filter (fun r => r.callId ≠ callId) },
           [.rejectCall cid (.rpcError (some (.num (-32000)))
              (some (.str ("Request timed out after " ++ toString rec.timeoutMs ++
                "ms: " ++ rec.method))))]) := by
        simp only [timerFire, hf, hl, hr]
      rw [hres]
      refine ⟨?_, rfl, rfl, ?_⟩
      · refine ⟨hwf.one_le, hent, hnd, ?_⟩
        intro hc
        rw [hwf.closed_pending hc] at hl
        simp [lookupPending] at hl
      · intro id
        rw [completionsFor_reject id cid]
        show (if cid = id then 1 else 0) + cntId (l1 ++ l2) id = cntId st.pending id
        rw [hcnt id]
        omega

theorem handleClose_spec (st : ConnState) (hwf : WF st) :
    WF (handleClose st).1 ∧
    (handleClose st).1.nextId = st.nextId ∧
    ∀ id, completionsFor id (handleClose st).2 +
        countP (handleClose st).1 id = countP st id := by
  by_cases hc : st.closed
  · have hres : handleClose st = (st, []) := by simp [handleClose, hc]
    rw [hres]
    exact ⟨hwf, rfl, fun id => by simp [completionsFor]⟩
  · have hres : handleClose st =
        ({ st with
            closed := true,
            pending := [],
            timers := st.timers.filter
              (fun r => !(st.pending.any (fun p => p.2 == r.callId))),
            incomingWaiters := [] },
         st.pending.map (fun p => Effect.rejectCall p.2 .connectionClosed) ++
           (st.incomingWaiters.map (fun w => Effect.rejectWaiter w .connectionClosed) ++
             [.emitClose])) := by
      simp only [handleClose, if_neg hc, List.append_assoc]
    rw [hres]
    refine ⟨⟨hwf.one_le, by simp, by simp, fun _ => rfl⟩, rfl, ?_⟩
    intro id
    rw [completionsFor_append, completionsFor_append,
      completionsFor_pending_rejects, completionsFor_waiter_rejects]
    have h1 : completionsFor id [Effect.emitClose] = 0 := rfl
    rw [h1]
    show cntId st.pending id + (0 + 0) + cntId [] id = cntId st.pending id
    simp [cntId]

theorem close_spec (st : ConnState) (hwf : WF st) :
    WF (close st).1 ∧
    (close st).1.nextId = st.nextId ∧
    ∀ id, completionsFor id (close st).2 +
        countP (close st).1 id = countP st id := by
  by_cases hc : st.closed
  · have hres : close st = (st, []) := by simp [close, hc]
    rw [hres]
    exact ⟨hwf, rfl, fun id => by simp [completionsFor]⟩
  · obtain ⟨h1, h2, h3⟩ := handleClose_spec st hwf
    have hres : close st = ((handleClose st).1,
        (handleClose st).2 ++ [.closeReader, .destroyWriter]) := by
      simp only [close, if_neg hc]
    rw [hres]
    refine ⟨h1, h2, ?_⟩
    intro id
    rw [completionsFor_append]
    have h4 : completionsFor id [Effect.closeReader, Effect.destroyWriter] = 0 := rfl
    rw [h4]
    show completionsFor id (handleClose st).2 + 0 + countP (handleClose st).1 id
      = countP st id
    have := h3 id
    omega

theorem cntId_single (k : String) (v id : Nat) :
    cntId [(k, v)] id = if v = id then 1 else 0 := by
  by_cases h : v = id
  · simp [cntId, List.filter, h]
  · have hb : (v == id) = false := by simpa using h
    simp [cntId, List.filter, hb, h]

theorem allocCount_succ (a id : Nat) :
    allocCount a (a + 1) id = if a = id then 1 else 0 := by
  unfold allocCount
  split_ifs <;> omega

theorem wf_transport {st st' : ConnState} (hwf : WF st)
    (hp : st'.pending = st.pending) (hn : st'.nextId = st.nextId)
    (hc : st'.closed = st.closed) : WF st' := by
  refine ⟨hn ▸ hwf.one_le, ?_, hp ▸ hwf.nodupIds, ?_⟩
  · intro p hmem
    rw [hp] at hmem
    obtain ⟨a, b, c⟩ := hwf.entries p hmem
    exact ⟨a, b, hn ▸ c⟩
  · intro hcl
    rw [hp]
    exact hwf.closed_pending (hc ▸ hcl)

theorem sendRequest_spec (st : ConnState) (hwf : WF st) (now : Nat)
    (method : String) (params : Option Json) (timeout : Option Nat) :
    WF (sendRequest st now method params timeout).1 ∧
    st.nextId ≤ (sendRequest st now method params timeout).1.nextId ∧
    ∀ id, completionsFor id (sendRequest st now method params timeout).2 +
        countP (sendRequest st now method params timeout).1 id
      = countP st id +
        allocCount st.nextId (sendRequest st now method params timeout).1.nextId id := by
  by_cases hc : st.closed
  · have hres : sendRequest st now method params timeout
        = (st, [.sendThrow .connectionClosed]) := by
      simp [sendRequest, hc]
    rw [hres]
    refine ⟨hwf, le_refl _, ?_⟩
    intro id
    rw [allocCount_self]
    exact Nat.zero_add _
  · have hfresh : ∀ p ∈ st.pending, p.1 ≠ jsNatString st.nextId := by
      intro p hp hk
      obtain ⟨h1, _, h3⟩ := hwf.entries p hp
      have : p.2 = st.nextId := jsNatString_inj _ _ (h1 ▸ hk)
      omega
    have hset : setPending st.pending (jsNatString st.nextId) st.nextId
        = st.pending ++ [(jsNatString st.nextId, st.nextId)] :=
      setPending_append hfresh
    have hres : sendRequest st now method params timeout
        = ({ st with
              nextId := st.nextId + 1,
              pending := st.pending ++ [(jsNatString st.nextId, st.nextId)],
              timers :=
                if timeout.getD st.requestTimeout > 0 then
                  st.timers ++ [⟨st.nextId, timeout.getD st.requestTimeout, now, method⟩]
                else st.timers },
           [.writeLine (makeRequest st.nextId method params)]) := by
      simp only [sendRequest, if_neg hc, hset]
    rw [hres]
    refine ⟨?_, Nat.le_succ _, ?_⟩
    · refine ⟨Nat.le_succ_of_le hwf.one_le, ?_, ?_, ?_⟩
      · intro p hp
        rcases List.mem_append.mp hp with h' | h'
        · obtain ⟨h1, h2, h3⟩ := hwf.entries p h'
          have h4 : p.2 < st.nextId + 1 := by omega
          exact ⟨h1, h2, h4⟩
        · rw [List.mem_singleton] at h'
          subst h'
          exact ⟨rfl, hwf.one_le, Nat.lt_succ_self _⟩
      · show ((st.pending ++ [(jsNatString st.nextId, st.nextId)]).map Prod.snd).Nodup
        rw [List.map_append]
        refine List.Nodup.append hwf.nodupIds (by simp) ?_
        intro x hx hx'
        simp only [List.map_cons, List.map_nil, List.mem_singleton] at hx'
        rcases List.mem_map.mp hx with ⟨p, hp, hps⟩
        have := (hwf.entries p hp).2.2
        omega
      · intro hcl
        exact absurd hcl (by simpa using hc)
    · intro id
      have h0 : completionsFor id
          [Effect.writeLine (makeRequest st.nextId method params)] = 0 := rfl
      rw [h0]
      show 0 + cntId (st.pending ++ [(jsNatString st.nextId, st.nextId)]) id
        = countP st id + allocCount st.nextId (st.nextId + 1) id
      rw [cntId_append, cntId_single, allocCount_succ]
      show 0 + (countP st id + (if st.nextId = id then 1 else 0))
        = countP st id + (if st.nextId = id then 1 else 0)
      omega

theorem routeIncoming_spec (st : ConnState) (m : IncomingMessage) :
    (routeIncoming st m).1.pending = st.pending ∧
    (routeIncoming st m).1.nextId = st.nextId ∧
    (routeIncoming st m).1.closed = st.closed ∧
    ∀ id, completionsFor id (routeIncoming st m).2 = 0 := by
  cases hw : st.incomingWaiters with
  | nil =>
    refine ⟨by simp [routeIncoming, hw], by simp [routeIncoming, hw],
      by simp [routeIncoming, hw], ?_⟩
    intro id
    cases m <;> simp [routeIncoming, hw, completionsFor, List.filter, broadcastOf]
  | cons w rest =>
    refine ⟨by simp [routeIncoming, hw], by simp [routeIncoming, hw],
      by simp [routeIncoming, hw], ?_⟩
    intro id
    cases m <;> simp [routeIncoming, hw, completionsFor, List.filter, broadcastOf]

theorem stepT_spec (st : ConnState) (t : Nat) (e : Event) (hwf : WF st) :
    WF (stepT st t e).1 ∧ st.nextId ≤ (stepT st t e).1.nextId ∧
    ∀ id, completionsFor id (stepT st t e).2 + countP (stepT st t e).1 id
        = countP st id + allocCount st.nextId (stepT st t e).1.nextId id := by
  have hsame : ∀ (r : ConnState × List Effect), r.1.pending = st.pending →
      r.1.nextId = st.nextId → (∀ id, completionsFor id r.2 = 0) →
      WF r.1 →
      WF r.1 ∧ st.nextId ≤ r.1.nextId ∧
      (∀ id, completionsFor id r.2 + countP r.1 id
          = countP st id + allocCount st.nextId r.1.nextId id) := by
    intro r hp hn h0 hwfr
    refine ⟨hwfr, by omega, ?_⟩
    intro id
    rw [h0 id, hn, allocCount_self, countP, hp]
    exact Nat.zero_add _
  have hfix : ∀ (r : ConnState × List Effect),
      (∀ id, completionsFor id r.2 + countP r.1 id = countP st id) →
      r.1.nextId = st.nextId → WF r.1 →
      WF r.1 ∧ st.nextId ≤ r.1.nextId ∧
      (∀ id, completionsFor id r.2 + countP r.1 id
          = countP st id + allocCount st.nextId r.1.nextId id) := by
    intro r heq hn hwfr
    refine ⟨hwfr, by omega, ?_⟩
    intro id
    rw [hn, allocCount_self, heq id]
    omega
  cases e with
  | evSendRequest method params timeout =>
    exact sendRequest_spec st hwf t method params timeout
  | evSendNotification method params =>
    simp only [stepT]
    by_cases hc : st.closed
    · have hres : sendNotification st method params = (st, []) := by
        simp [sendNotification, hc]
      rw [hres]
      exact hsame (st, []) rfl rfl (fun id => rfl) hwf
    · have hres : sendNotification st method params
          = (st, [.writeLine (makeNotification method params)]) := by
        simp [sendNotification, hc]
      rw [hres]
      exact hsame _ rfl rfl (fun id => rfl) hwf
  | evSendResponse i result =>
    simp only [stepT]
    by_cases hc : st.closed
    · have hres : sendResponse st i result = (st, []) := by
        simp [sendResponse, hc]
      rw [hres]
      exact hsame (st, []) rfl rfl (fun id => rfl) hwf
    · have hres : sendResponse st i result
          = (st, [.writeLine (makeResponse i result)]) := by
        simp [sendResponse, hc]
      rw [hres]
      exact hsame _ rfl rfl (fun id => rfl) hwf
  | evSendError i code message =>
    simp only [stepT]
    by_cases hc : st.closed
    · have hres : sendError st i code message = (st, []) := by
        simp [sendError, hc]
      rw [hres]
      exact hsame (st, []) rfl rfl (fun id => rfl) hwf
    · have hres : sendError st i code message
          = (st, [.writeLine (makeErrorResponse i code message)]) := by
        simp [sendError, hc]
      rw [hres]
      exact hsame _ rfl rfl (fun id => rfl) hwf
  | evNextMessage caller =>
    simp only [stepT]
    cases hq : st.incomingQueue with
    | cons m rest =>
      have hres : nextMessage st caller
          = ({ st with incomingQueue := rest }, [.pullReturn caller m]) := by
        simp [nextMessage, hq]
      rw [hres]
      exact hsame _ rfl rfl (fun id => rfl)
        (wf_transport hwf rfl rfl rfl)
    | nil =>
      by_cases hc : st.closed
      · have hres : nextMessage st caller
            = (st, [.pullThrow caller .connectionClosed]) := by
          simp [nextMessage, hq, hc]
        rw [hres]
        exact hsame _ rfl rfl (fun id => rfl) hwf
      · have hres : nextMessage st caller
            = ({ st with incomingWaiters := st.incomingWaiters ++ [caller] }, []) := by
          simp [nextMessage, hq, hc]
        rw [hres]
        exact hsame _ rfl rfl (fun id => rfl)
          (wf_transport hwf rfl rfl rfl)
  | evLine parsed =>
    simp only [stepT]
    cases parsed with
    | none =>
      exact hsame (st, []) rfl rfl (fun id => rfl) hwf
    | some j =>
      cases j with
      | obj fields =>
        by_cases h1 : (hasIdB fields && (hasResultB fields || hasErrorB fields)) = true
        · have hres : handleLine st (some (.obj fields)) = routeResponse st fields := by
            simp [handleLine, handleParsedMessage, h1]
          rw [hres]
          obtain ⟨hwf2, hn, hcl, heq⟩ := routeResponse_spec st hwf fields
          exact hfix _ heq hn hwf2
        · by_cases h2 : (hasIdB fields && hasMethodB fields) = true
          · have hres : handleLine st (some (.obj fields))
                = routeIncoming st (.request fields) := by
              simp [handleLine, handleParsedMessage, h1, h2]
            rw [hres]
            obtain ⟨hp, hn, hcl, h0⟩ := routeIncoming_spec st (.request fields)
            exact hsame _ hp hn h0 (wf_transport hwf hp hn hcl)
          · by_cases h3 : (hasMethodB fields && !hasIdB fields) = true
            · have hres : handleLine st (some (.obj fields))
                  = routeIncoming st (.notification fields) := by
                simp [handleLine, handleParsedMessage, h1, h2, h3]
              rw [hres]
              obtain ⟨hp, hn, hcl, h0⟩ := routeIncoming_spec st (.notification fields)
              exact hsame _ hp hn h0 (wf_transport hwf hp hn hcl)
            · have hres : handleLine st (some (.obj fields)) = (st, []) := by
                simp [handleLine, handleParsedMessage, h1, h2, h3]
              rw [hres]
              exact hsame (st, []) rfl rfl (fun id => rfl) hwf
      | null => exact hsame (st, []) rfl rfl (fun id => rfl) hwf
      | bool b => exact hsame (st, []) rfl rfl (fun id => rfl) hwf
      | num n => exact hsame (st, []) rfl rfl (fun id => rfl) hwf
      | str s => exact hsame (st, []) rfl rfl (fun id => rfl) hwf
      | arr xs => exact hsame (st, []) rfl rfl (fun id => rfl) hwf
  | evTimerFire callId =>
    simp only [stepT]
    obtain ⟨hwf2, hn, hcl, heq⟩ := timerFire_spec st hwf callId
    exact hfix _ heq hn hwf2
  | evClose =>
    simp only [stepT]
    obtain ⟨hwf2, hn, heq⟩ := close_spec st hwf
    exact hfix _ heq hn hwf2
  | evEndOfStream =>
    simp only [stepT]
    obtain ⟨hwf2, hn, heq⟩ := handleClose_spec st hwf
    exact hfix _ heq hn hwf2

theorem runT_spec (es : List (Nat × Event)) : ∀ (st : ConnState), WF st →
    WF (runT st es).1 ∧ st.nextId ≤ (runT st es).1.nextId ∧
    ∀ id, completionsFor id (runT st es).2 + countP (runT st es).1 id
        = countP st id + allocCount st.nextId (runT st es).1.nextId id := by
  induction es with
  | nil =>
    intro st hwf
    refine ⟨hwf, le_refl _, ?_⟩
    intro id
    simp only [runT]
    rw [allocCount_self]
    exact Nat.zero_add _
  | cons te rest ih =>
    intro st hwf
    obtain ⟨t, e⟩ := te
    obtain ⟨hwf1, hn1, heq1⟩ := stepT_spec st t e hwf
    obtain ⟨hwf2, hn2, heq2⟩ := ih (stepT st t e).1 hwf1
    have hrun : runT st ((t, e) :: rest)
        = ((runT (stepT st t e).1 rest).1,
           (stepT st t e).2 ++ (runT (stepT st t e).1 rest).2) := by
      simp [runT]
    rw [hrun]
    refine ⟨hwf2, ?_, ?_⟩
    · show st.nextId ≤ (runT (stepT st t e).1 rest).1.nextId
      omega
    intro id
    rw [completionsFor_append]
    show completionsFor id (stepT st t e).2 +
        completionsFor id (runT (stepT st t e).1 rest).2 +
        countP (runT (stepT st t e).1 rest).1 id
      = countP st id + allocCount st.nextId (runT (stepT st t e).1 rest).1.nextId id
    have h1 := heq1 id
    have h2 := heq2 id
    have ha := allocCount_trans hn1 hn2 id
    omega

/-! ### Delivery order -/

theorem emittedOf_append (a b : List Effect) :
    emittedOf (a ++ b) = emittedOf a ++ emittedOf b := by
  simp [emittedOf, List.filterMap_append]

theorem pullDelivered_append (a b : List Effect) :
    pullDelivered (a ++ b) = pullDelivered a ++ pullDelivered b := by
  simp [pullDelivered, List.filterMap_append]

theorem emittedOf_broadcast (m : IncomingMessage) :
    emittedOf [broadcastOf m] = [m] := by
  cases m <;> rfl

theorem pullDelivered_broadcast (m : IncomingMessage) :
    pullDelivered [broadcastOf m] = [] := by
  cases m <;> rfl

theorem emittedOf_pending_rejects (l : List (String × Nat)) :
    emittedOf (l.map (fun p => Effect.rejectCall p.2 .connectionClosed)) = [] := by
  induction l with
  | nil => rfl
  | cons p rest ih => simpa [emittedOf] using ih

theorem emittedOf_waiter_rejects (ws : List Nat) :
    emittedOf (ws.map (fun w => Effect.rejectWaiter w .connectionClosed)) = [] := by
  induction ws with
  | nil => rfl
  | cons w rest ih => simpa [emittedOf] using ih

theorem pullDelivered_pending_rejects (l : List (String × Nat)) :
    pullDelivered (l.map (fun p => Effect.rejectCall p.2 .connectionClosed)) = [] := by
  induction l with
  | nil => rfl
  | cons p rest ih => simpa [pullDelivered] using ih

theorem pullDelivered_waiter_rejects (ws : List Nat) :
    pullDelivered (ws.map (fun w => Effect.rejectWaiter w .connectionClosed)) = [] := by
  induction ws with
  | nil => rfl
  | cons w rest ih => simpa [pullDelivered] using ih

theorem routeResponse_order (st : ConnState) (fields : List (String × Json)) :
    emittedOf (routeResponse st fields).2 = [] ∧
    pullDelivered (routeResponse st fields).2 = [] ∧
    (routeResponse st fields).1.incomingQueue = st.incomingQueue ∧
    (routeResponse st fields).1.incomingWaiters = st.incomingWaiters := by
  cases hl : lookupPending st.pending (respKey fields) with
  | none => simp [routeResponse, hl, emittedOf, pullDelivered]
  | some cid =>
    cases herr : lookupField fields "error" with
    | none => simp [routeResponse, hl, herr, emittedOf, pullDelivered]
    | some ev =>
      by_cases ht : ev.truthy <;>
        simp [routeResponse, hl, herr, ht, emittedOf, pullDelivered]

theorem timerFire_order (st : ConnState) (callId : Nat) :
    emittedOf (timerFire st callId).2 = [] ∧
    pullDelivered (timerFire st callId).2 = [] ∧
    (timerFire st callId).1.incomingQueue = st.incomingQueue ∧
    (timerFire st callId).1.incomingWaiters = st.incomingWaiters := by
  cases hf : st.timers.find? (fun r => r.callId = callId) with
  | none => simp [timerFire, hf, emittedOf, pullDelivered]
  | some rec =>
    cases hl : lookupPending st.pending (jsNatString callId) with
    | none => simp [timerFire, hf, hl, emittedOf, pullDelivered]
    | some cid => simp [timerFire, hf, hl, emittedOf, pullDelivered]

theorem handleClose_order (st : ConnState) :
    emittedOf (handleClose st).2 = [] ∧
    pullDelivered (handleClose st).2 = [] ∧
    (handleClose st).1.incomingQueue = st.incomingQueue ∧
    (handleClose st).1.incomingWaiters = [] ∨
    st.closed = true ∧ handleClose st = (st, []) := by
  by_cases hc : st.closed
  · exact Or.inr ⟨hc, by simp [handleClose, hc]⟩
  · refine Or.inl ⟨?_, ?_, by simp [handleClose, hc], by simp [handleClose, hc]⟩
    · have hres : (handleClose st).2
          = st.pending.map (fun p => Effect.rejectCall p.2 .connectionClosed) ++
            (st.incomingWaiters.map (fun w => Effect.rejectWaiter w .connectionClosed) ++
              [.emitClose]) := by
        simp [handleClose, hc]
      rw [hres, emittedOf_append, emittedOf_append, emittedOf_pending_rejects,
        emittedOf_waiter_rejects]
      rfl
    · have hres : (handleClose st).2
          = st.pending.map (fun p => Effect.rejectCall p.2 .connectionClosed) ++
            (st.incomingWaiters.map (fun w => Effect.rejectWaiter w .connectionClosed) ++
              [.emitClose]) := by
        simp [handleClose, hc]
      rw [hres, pullDelivered_append, pullDelivered_append,
        pullDelivered_pending_rejects, pullDelivered_waiter_rejects]
      rfl

theorem stepT_order (st : ConnState) (t : Nat) (e : Event)
    (hinv : st.incomingWaiters ≠ [] → st.incomingQueue = []) :
    emittedOf (stepT st t e).2 = (classifyEvent e).toList ∧
    pullDelivered (stepT st t e).2 ++ (stepT st t e).1.incomingQueue
      = st.incomingQueue ++ (classifyEvent e).toList ∧
    ((stepT st t e).1.incomingWaiters ≠ [] → (stepT st t e).1.incomingQueue = []) := by
  have hplain : ∀ (r : ConnState × List Effect), emittedOf r.2 = [] →
      pullDelivered r.2 = [] → r.1.incomingQueue = st.incomingQueue →
      r.1.incomingWaiters = st.incomingWaiters →
      emittedOf r.2 = (none : Option IncomingMessage).toList ∧
      pullDelivered r.2 ++ r.1.incomingQueue
        = st.incomingQueue ++ (none : Option IncomingMessage).toList ∧
      (r.1.incomingWaiters ≠ [] → r.1.incomingQueue = []) := by
    intro r h1 h2 h3 h4
    refine ⟨by simp [h1], by simp [h2, h3], ?_⟩
    rw [h3, h4]
    exact hinv
  have hroute : ∀ m, emittedOf (routeIncoming st m).2 = [m] ∧
      pullDelivered (routeIncoming st m).2 ++ (routeIncoming st m).1.incomingQueue
        = st.incomingQueue ++ [m] ∧
      ((routeIncoming st m).1.incomingWaiters ≠ [] →
        (routeIncoming st m).1.incomingQueue = []) := by
    intro m
    cases hw : st.incomingWaiters with
    | nil =>
      have hres : routeIncoming st m
          = ({ st with incomingQueue := st.incomingQueue ++ [m] }, [broadcastOf m]) := by
        simp [routeIncoming, hw]
      rw [hres]
      refine ⟨emittedOf_broadcast m, ?_, ?_⟩
      · rw [pullDelivered_broadcast]
        rfl
      · intro hne
        exact absurd hw (by simpa using hne)
    | cons w rest =>
      have hq : st.incomingQueue = [] := hinv (by simp [hw])
      have hres : routeIncoming st m
          = ({ st with incomingWaiters := rest },
             [broadcastOf m, .resolveWaiter w m]) := by
        simp [routeIncoming, hw]
      rw [hres]
      have he : emittedOf [broadcastOf m, .resolveWaiter w m] = [m] := by
        cases m <;> rfl
      have hp : pullDelivered [broadcastOf m, .resolveWaiter w m] = [m] := by
        cases m <;> rfl
      refine ⟨he, ?_, fun _ => by simpa using hq⟩
      rw [hp]
      show [m] ++ st.incomingQueue = st.incomingQueue ++ [m]
      rw [hq]
      simp
  cases e with
  | evSendRequest method params timeout =>
    simp only [stepT]
    by_cases hc : st.closed
    · have hres : sendRequest st t method params timeout
          = (st, [.sendThrow .connectionClosed]) := by
        simp [sendRequest, hc]
      rw [hres]
      exact hplain _ rfl rfl rfl rfl
    · have hres : sendRequest st t method params timeout
          = ({ st with
                nextId := st.nextId + 1,
                pending := setPending st.pending (jsNatString st.nextId) st.nextId,
                timers :=
                  if (timeout.getD st.requestTimeout) > 0 then
                    st.timers ++
                      [⟨st.nextId, timeout.getD st.requestTimeout, t, method⟩]
                  else st.timers },
             [.writeLine (makeRequest st.nextId method params)]) := by
        simp only [sendRequest, if_neg hc]
      rw [hres]
      exact hplain _ rfl rfl rfl rfl
  | evSendNotification method params =>
    simp only [stepT]
    by_cases hc : st.closed
    · have hres : sendNotification st method params = (st, []) := by
        simp [sendNotification, hc]
      rw [hres]
      exact hplain _ rfl rfl rfl rfl
    · have hres : sendNotification st method params
          = (st, [.writeLine (makeNotification method params)]) := by
        simp [sendNotification, hc]
      rw [hres]
      exact hplain _ rfl rfl rfl rfl
  | evSendResponse i result =>
    simp only [stepT]
    by_cases hc : st.closed
    · have hres : sendResponse st i result = (st, []) := by
        simp [sendResponse, hc]
      rw [hres]
      exact hplain _ rfl rfl rfl rfl
    · have hres : sendResponse st i result
          = (st, [.writeLine (makeResponse i result)]) := by
        simp [sendResponse, hc]
      rw [hres]
      exact hplain _ rfl rfl rfl rfl
  | evSendError i code message =>
    simp only [stepT]
    by_cases hc : st.closed
    · have hres : sendError st i code message = (st, []) := by
        simp [sendError, hc]
      rw [hres]
      exact hplain _ rfl rfl rfl rfl
    · have hres : sendError st i code message
          = (st, [.writeLine (makeErrorResponse i code message)]) := by
        simp [sendError, hc]
      rw [hres]
      exact hplain _ rfl rfl rfl rfl
  | evNextMessage caller =>
    simp only [stepT]
    cases hq : st.incomingQueue with
    | cons m rest =>
      have hres : nextMessage st caller
          = ({ st with incomingQueue := rest }, [.pullReturn caller m]) := by
        simp [nextMessage, hq]
      rw [hres]
      refine ⟨rfl, ?_, ?_⟩
      · simp [pullDelivered, classifyEvent, hq]
      · intro hne
        have hq2 := hinv (by simpa using hne)
        rw [hq] at hq2
        simp at hq2
    | nil =>
      by_cases hc : st.closed
      · have hres : nextMessage st caller
            = (st, [.pullThrow caller .connectionClosed]) := by
          simp [nextMessage, hq, hc]
        rw [hres]
        refine ⟨rfl, ?_, ?_⟩
        · simp [pullDelivered, classifyEvent, hq]
        · intro hne
          exact hq
      · have hres : nextMessage st caller
            = ({ st with incomingWaiters := st.incomingWaiters ++ [caller] }, []) := by
          simp [nextMessage, hq, hc]
        rw [hres]
        refine ⟨rfl, ?_, ?_⟩
        · simp [pullDelivered, classifyEvent, hq]
        · intro hne
          exact hq
  | evLine parsed =>
    simp only [stepT]
    cases parsed with
    | none => exact hplain (st, []) rfl rfl rfl rfl
    | some j =>
      cases j with
      | obj fields =>
        by_cases h1 : (hasIdB fields && (hasResultB fields || hasErrorB fields)) = true
        · have hres : handleLine st (some (.obj fields)) = routeResponse st fields := by
            simp [handleLine, handleParsedMessage, h1]
          have hcl : classifyEvent (.evLine (some (.obj fields)))
              = none := by
            simp [classifyEvent, h1]
          rw [hres, hcl]
          obtain ⟨ho1, ho2, ho3, ho4⟩ := routeResponse_order st fields
          exact hplain _ ho1 ho2 ho3 ho4
        · by_cases h2 : (hasIdB fields && hasMethodB fields) = true
          · have hres : handleLine st (some (.obj fields))
                = routeIncoming st (.request fields) := by
              simp [handleLine, handleParsedMessage, h1, h2]
            have hcl : classifyEvent (.evLine (some (.obj fields)))
                = some (.request fields) := by
              simp [classifyEvent, h1, h2]
            rw [hres, hcl]
            exact hroute (.request fields)
          · by_cases h3 : (hasMethodB fields && !hasIdB fields) = true
            · have hres : handleLine st (some (.obj fields))
                  = routeIncoming st (.notification fields) := by
                simp [handleLine, handleParsedMessage, h1, h2, h3]
              have hcl : classifyEvent (.evLine (some (.obj fields)))
                  = some (.notification fields) := by
                simp [classifyEvent, h1, h2, h3]
              rw [hres, hcl]
              exact hroute (.notification fields)
            · have hres : handleLine st (some (.obj fields)) = (st, []) := by
                simp [handleLine, handleParsedMessage, h1, h2, h3]
              have hcl : classifyEvent (.evLine (some (.obj fields)))
                  = none := by
                simp [classifyEvent, h1, h2, h3]
              rw [hres, hcl]
              exact hplain (st, []) rfl rfl rfl rfl
      | null => exact hplain (st, []) rfl rfl rfl rfl
      | bool b => exact hplain (st, []) rfl rfl rfl rfl
      | num n => exact hplain (st, []) rfl rfl rfl rfl
      | str s => exact hplain (st, []) rfl rfl rfl rfl
      | arr xs => exact hplain (st, []) rfl rfl rfl rfl
  | evTimerFire callId =>
    simp only [stepT]
    obtain ⟨ho1, ho2, ho3, ho4⟩ := timerFire_order st callId
    exact hplain _ ho1 ho2 ho3 ho4
  | evClose =>
    simp only [stepT]
    by_cases hc : st.closed
    · have hres : close st = (st, []) := by simp [close, hc]
      rw [hres]
      exact hplain (st, []) rfl rfl rfl rfl
    · rcases handleClose_order st with ⟨ho1, ho2, ho3, ho4⟩ | ⟨hc2, _⟩
      · have hres : close st = ((handleClose st).1,
            (handleClose st).2 ++ [.closeReader, .destroyWriter]) := by
          simp only [close, if_neg hc]
        rw [hres]
        refine ⟨?_, ?_, ?_⟩
        · show emittedOf ((handleClose st).2 ++ [.closeReader, .destroyWriter])
            = (classifyEvent .evClose).toList
          rw [emittedOf_append, ho1]
          rfl
        · show pullDelivered ((handleClose st).2 ++ [.closeReader, .destroyWriter])
              ++ (handleClose st).1.incomingQueue
            = st.incomingQueue ++ (classifyEvent .evClose).toList
          rw [pullDelivered_append, ho2, ho3]
          simp [classifyEvent, pullDelivered]
        · intro hne
          exact absurd ho4 hne
      · exact absurd hc2 (by simpa using hc)
  | evEndOfStream =>
    simp only [stepT]
    rcases handleClose_order st with ⟨ho1, ho2, ho3, ho4⟩ | ⟨hc2, hres⟩
    · refine ⟨ho1, ?_, ?_⟩
      · rw [ho2, ho3]
        simp [classifyEvent]
      · intro hne
        exact absurd ho4 hne
    · rw [hres]
      exact hplain (st, []) rfl rfl rfl rfl

theorem classifiedOf_cons (t : Nat) (e : Event) (rest : List (Nat × Event)) :
    classifiedOf ((t, e) :: rest) = (classifyEvent e).toList ++ classifiedOf rest := by
  cases h : classifyEvent e <;> simp [classifiedOf, List.filterMap_cons, h]

theorem runT_order (es : List (Nat × Event)) : ∀ (st : ConnState),
    (st.incomingWaiters ≠ [] → st.incomingQueue = []) →
    emittedOf (runT st es).2 = classifiedOf es ∧
    pullDelivered (runT st es).2 ++ (runT st es).1.incomingQueue
      = st.incomingQueue ++ classifiedOf es ∧
    ((runT st es).1.incomingWaiters ≠ [] → (runT st es).1.incomingQueue = []) := by
  induction es with
  | nil =>
    intro st hinv
    exact ⟨rfl, by simp [classifiedOf, pullDelivered, runT], hinv⟩
  | cons te rest ih =>
    intro st hinv
    obtain ⟨t, e⟩ := te
    obtain ⟨hs1, hs2, hs3⟩ := stepT_order st t e hinv
    obtain ⟨hr1, hr2, hr3⟩ := ih (stepT st t e).1 hs3
    have hrun : runT st ((t, e) :: rest)
        = ((runT (stepT st t e).1 rest).1,
           (stepT st t e).2 ++ (runT (stepT st t e).1 rest).2) := by
      simp [runT]
    rw [hrun, classifiedOf_cons]
    refine ⟨?_, ?_, hr3⟩
    · show emittedOf ((stepT st t e).2 ++ (runT (stepT st t e).1 rest).2) = _
      rw [emittedOf_append, hs1, hr1]
    · show pullDelivered ((stepT st t e).2 ++ (runT (stepT st t e).1 rest).2)
          ++ (runT (stepT st t e).1 rest).1.incomingQueue
        = st.incomingQueue ++ ((classifyEvent e).toList ++ classifiedOf rest)
      rw [pullDelivered_append, List.append_assoc, hr2, ← List.append_assoc, hs2,
        List.append_assoc]

/-! ### Trace splitting -/

theorem runT_append (xs : List (Nat × Event)) : ∀ (st : ConnState) (ys : List (Nat × Event)),
    runT st (xs ++ ys)
      = ((runT (runT st xs).1 ys).1, (runT st xs).2 ++ (runT (runT st xs).1 ys).2) := by
  induction xs with
  | nil => intro st ys; simp [runT]
  | cons x rest ih =>
    intro st ys
    obtain ⟨t, e⟩ := x
    show runT st ((t, e) :: (rest ++ ys)) = _
    have h1 : runT st ((t, e) :: (rest ++ ys))
        = ((runT (stepT st t e).1 (rest ++ ys)).1,
           (stepT st t e).2 ++ (runT (stepT st t e).1 (rest ++ ys)).2) := by
      simp [runT]
    have h2 : runT st ((t, e) :: rest)
        = ((runT (stepT st t e).1 rest).1,
           (stepT st t e).2 ++ (runT (stepT st t e).1 rest).2) := by
      simp [runT]
    rw [h1, ih (stepT st t e).1 ys, h2]
    simp [List.append_assoc]

theorem validB_split (xs : List (Nat × Event)) : ∀ (st : ConnState) (now : Nat)
    (ys : List (Nat × Event)), validB st now (xs ++ ys) = true →
    ∃ now2, validB (runT st xs).1 now2 ys = true := by
  induction xs with
  | nil =>
    intro st now ys h
    exact ⟨now, h⟩
  | cons x rest ih =>
    intro st now ys h
    obtain ⟨t, e⟩ := x
    have h3 : validB (stepT st t e).1 t (rest ++ ys) = true :=
      (Bool.and_eq_true_iff.mp h).2
    exact ih (stepT st t e).1 t ys h3

theorem cntId_pos {l : List (String × Nat)} {k : String} {cid : Nat}
    (h : lookupPending l k = some cid) : 1 ≤ cntId l cid := by
  obtain ⟨l1, l2, he, _, _⟩ := lookup_split h
  rw [he, cntId_middle]
  simp

theorem allocCount_le_one (a b id : Nat) : allocCount a b id ≤ 1 := by
  unfold allocCount
  split_ifs <;> omega

theorem allocCount_eq_zero_of_lt {a b id : Nat} (h : id < a) : allocCount a b id = 0 := by
  unfold allocCount
  split_ifs <;> omega

theorem allocCount_eq_zero_of_ge {a b id : Nat} (h : b ≤ id) : allocCount a b id = 0 := by
  unfold allocCount
  split_ifs <;> omega

/-! ### The claims -/

/-- C5: `nextMessage` pops and returns the oldest queued entry immediately
when the queue is non-empty, with no suspension, even when the connection is
already closed; with an empty queue it fails immediately with
`ConnectionClosed` when closed, and otherwise suspends by appending a Waiter
to the FIFO list, to be completed by a later message or by close. -/
theorem C5_nextMessage_contract (st : ConnState) (caller : Nat) :
    (∀ m rest, st.incomingQueue = m :: rest →
      nextMessage st caller
        = ({ st with incomingQueue := rest }, [.pullReturn caller m])) ∧
    (st.incomingQueue = [] → st.closed = true →
      nextMessage st caller = (st, [.pullThrow caller .connectionClosed])) ∧
    (st.incomingQueue = [] → st.closed = false →
      nextMessage st caller
        = ({ st with incomingWaiters := st.incomingWaiters ++ [caller] }, [])) ∧
    (∀ (st' : ConnState) (m : IncomingMessage) w rest,
      st'.incomingWaiters = w :: rest →
      (routeIncoming st' m).2 = [broadcastOf m, .resolveWaiter w m]) ∧
    (∀ st' : ConnState, st'.closed = false → ∀ w ∈ st'.incomingWaiters,
      Effect.rejectWaiter w .connectionClosed ∈ (handleClose st').2) := by
  refine ⟨?_, ?_, ?_, ?_, ?_⟩
  · intro m rest hq
    simp [nextMessage, hq]
  · intro hq hc
    simp [nextMessage, hq, hc]
  · intro hq hc
    simp [nextMessage, hq, hc]
  · intro st' m w rest hw
    simp [routeIncoming, hw]
  · intro st' hc w hw
    have hres : (handleClose st').2
        = st'.pending.map (fun p => Effect.rejectCall p.2 .connectionClosed) ++
          (st'.incomingWaiters.map
              (fun w' => Effect.rejectWaiter w' .connectionClosed) ++
            [.emitClose]) := by
      simp [handleClose, hc]
    rw [hres]
    refine List.mem_append.mpr (Or.inr (List.mem_append.mpr (Or.inl ?_)))
    exact List.mem_map_of_mem _ hw

def c5Closed : ConnState :=
  { ConnState.init with
    closed := true,
    incomingQueue := [.notification [("method", .str "ping")]] }

/-- Witness for C5: a closed connection with one queued notification still
drains it; a closed empty connection fails; an open empty one suspends. -/
theorem C5_nextMessage_contract_witness :
    nextMessage c5Closed 0
      = ({ c5Closed with incomingQueue := [] },
         [.pullReturn 0 (.notification [("method", .str "ping")])]) ∧
    nextMessage { c5Closed with incomingQueue := [] } 0
      = ({ c5Closed with incomingQueue := [] },
         [.pullThrow 0 .connectionClosed]) ∧
    nextMessage ConnState.init 3
      = ({ ConnState.init with incomingWaiters := [3] }, []) :=
  ⟨(C5_nextMessage_contract c5Closed 0).1
     (.notification [("method", .str "ping")]) [] rfl,
   (C5_nextMessage_contract { c5Closed with incomingQueue := [] } 0).2.1 rfl rfl,
   (C5_nextMessage_contract ConnState.init 3).2.2.1 rfl rfl⟩

/-- C6: the classifier routes a decoded object with an id and a result or
error field to the pending-call table; an object with an id and a (string)
method is delivered as a Request; a method without an id as a Notification;
everything else — unparseable lines, non-object values, objects matching no
shape — is silently discarded with the state unchanged, and no path ever
changes the closed flag. -/
theorem C6_classifier_contract (st : ConnState) :
    (handleLine st none = (st, [])) ∧
    (handleLine st (some .null) = (st, [])) ∧
    (∀ b, handleLine st (some (.bool b)) = (st, [])) ∧
    (∀ n, handleLine st (some (.num n)) = (st, [])) ∧
    (∀ s, handleLine st (some (.str s)) = (st, [])) ∧
    (∀ xs, handleLine st (some (.arr xs)) = (st, [])) ∧
    (∀ fields, hasIdB fields = true → (hasResultB fields || hasErrorB fields) = true →
      handleLine st (some (.obj fields)) = routeResponse st fields) ∧
    (∀ fields, hasIdB fields = true → hasMethodB fields = true →
      hasResultB fields = false → hasErrorB fields = false →
      handleLine st (some (.obj fields)) = routeIncoming st (.request fields)) ∧
    (∀ fields, hasIdB fields = false → hasMethodB fields = true →
      handleLine st (some (.obj fields)) = routeIncoming st (.notification fields)) ∧
    (∀ fields, hasMethodB fields = false → hasResultB fields = false →
      hasErrorB fields = false → handleLine st (some (.obj fields)) = (st, [])) ∧
    (∀ fields, hasIdB fields = false → hasMethodB fields = false →
      handleLine st (some (.obj fields)) = (st, [])) ∧
    (∀ p, (handleLine st p).1.closed = st.closed) := by
  have hrr : ∀ fields, (routeResponse st fields).1.closed = st.closed := by
    intro fields
    cases hl : lookupPending st.pending (respKey fields) with
    | none => simp [routeResponse, hl]
    | some cid =>
      cases herr : lookupField fields "error" with
      | none => simp [routeResponse, hl, herr]
      | some ev => by_cases ht : ev.truthy <;> simp [routeResponse, hl, herr, ht]
  have hri : ∀ m, (routeIncoming st m).1.closed = st.closed := by
    intro m
    cases hw : st.incomingWaiters <;> simp [routeIncoming, hw]
  refine ⟨rfl, rfl, fun b => rfl, fun n => rfl, fun s => rfl, fun xs => rfl,
    ?_, ?_, ?_, ?_, ?_, ?_⟩
  · intro fields h1 h2
    simp [handleLine, handleParsedMessage, h1, h2]
  · intro fields h1 h2 h3 h4
    simp [handleLine, handleParsedMessage, h1, h2, h3, h4]
  · intro fields h1 h2
    simp [handleLine, handleParsedMessage, h1, h2]
  · intro fields h1 h2 h3
    simp [handleLine, handleParsedMessage, h1, h2, h3]
  · intro fields h1 h2
    simp [handleLine, handleParsedMessage, h1, h2]
  · intro p
    cases p with
    | none => rfl
    | some j =>
      cases j with
      | obj fields =>
        by_cases h1 : (hasIdB fields && (hasResultB fields || hasErrorB fields)) = true
        · have : handleLine st (some (.obj fields)) = routeResponse st fields := by
            simp [handleLine, handleParsedMessage, h1]
          rw [this]
          exact hrr fields
        · by_cases h2 : (hasIdB fields && hasMethodB fields) = true
          · have : handleLine st (some (.obj fields))
                = routeIncoming st (.request fields) := by
              simp [handleLine, handleParsedMessage, h1, h2]
            rw [this]
            exact hri _
          · by_cases h3 : (hasMethodB fields && !hasIdB fields) = true
            · have : handleLine st (some (.obj fields))
                  = routeIncoming st (.notification fields) := by
                simp [handleLine, handleParsedMessage, h1, h2, h3]
              rw [this]
              exact hri _
            · have : handleLine st (some (.obj fields)) = (st, []) := by
                simp [handleLine, handleParsedMessage, h1, h2, h3]
              rw [this]
      | null => rfl
      | bool b => rfl
      | num n => rfl
      | str s => rfl
      | arr xs => rfl

/-- Witness for C6: concrete response, request, notification and discard
shapes on a fresh connection. -/
theorem C6_classifier_contract_witness :
    handleLine ConnState.init (some (.obj [("id", .num 1), ("result", .num 42)]))
      = routeResponse ConnState.init [("id", .num 1), ("result", .num 42)] ∧
    handleLine ConnState.init
        (some (.obj [("id", .num 7), ("method", .str "ping")]))
      = routeIncoming ConnState.init
          (.request [("id", .num 7), ("method", .str "ping")]) ∧
    handleLine ConnState.init (some (.obj [("method", .str "ping")]))
      = routeIncoming ConnState.init (.notification [("method", .str "ping")]) ∧
    handleLine ConnState.init (some (.obj [("jsonrpc", .str "2.0")]))
      = (ConnState.init, []) ∧
    handleLine ConnState.init none = (ConnState.init, []) :=
  ⟨(C6_classifier_contract ConnState.init).2.2.2.2.2.2.1 _ rfl rfl,
   (C6_classifier_contract ConnState.init).2.2.2.2.2.2.2.1 _ rfl rfl rfl rfl,
   (C6_classifier_contract ConnState.init).2.2.2.2.2.2.2.2.1 _ rfl rfl,
   (C6_classifier_contract ConnState.init).2.2.2.2.2.2.2.2.2.1 _ rfl rfl rfl,
   (C6_classifier_contract ConnState.init).1⟩

/-- C7: a response whose id matches a pending call and whose error field is
an object carrying a code and a message makes `routeResponse` reject that
call's future with an `RpcError` carrying exactly that code and message, and
the call is never resolved. -/
theorem C7_remote_error_rejects (st : ConnState) (fields errf : List (String × Json))
    (idv : Json) (cid : Nat) (c : Int) (m : String)
    (hid : lookupField fields "id" = some idv)
    (hp : lookupPending st.pending (jsString idv) = some cid)
    (herr : lookupField fields "error" = some (.obj errf))
    (hc : lookupField errf "code" = some (.num c))
    (hm : lookupField errf "message" = some (.str m)) :
    (routeResponse st fields).2
      = [.rejectCall cid (.rpcError (some (.num c)) (some (.str m)))] ∧
    ∀ i v, Effect.resolveCall i v ∉ (routeResponse st fields).2 := by
  have hkey : respKey fields = jsString idv := by simp [respKey, hid]
  have hres : (routeResponse st fields).2
      = [.rejectCall cid (.rpcError (some (.num c)) (some (.str m)))] := by
    rw [routeResponse, hkey]
    simp [hp, herr, Json.truthy, Json.field, hc, hm]
  refine ⟨hres, ?_⟩
  intro i v
  rw [hres]
  simp

def c7State : ConnState :=
  { ConnState.init with
    nextId := 3,
    pending := [("2", 2)] }

/-- Witness for C7: a concrete error response `{code: -32005, message:
"Checkpoint not found"}` for pending id 2. -/
theorem C7_remote_error_rejects_witness :
    (routeResponse c7State
        [("id", .num 2),
         ("error", .obj [("code", .num (-32005)),
                         ("message", .str "Checkpoint not found")])]).2
      = [.rejectCall 2 (.rpcError (some (.num (-32005)))
          (some (.str "Checkpoint not found")))] :=
  (C7_remote_error_rejects c7State
    [("id", .num 2),
     ("error", .obj [("code", .num (-32005)),
                     ("message", .str "Checkpoint not found")])]
    [("code", .num (-32005)), ("message", .str "Checkpoint not found")]
    (.num 2) 2 (-32005) "Checkpoint not found" rfl rfl rfl rfl rfl).1

/-- C9: once the connection is closed, `sendRequest` throws
`ConnectionClosedError` with the whole state — the id counter included —
unchanged, while `sendNotification`, `sendResponse` and `sendError` return
silently, writing nothing and raising nothing. -/
theorem C9_closed_send_behavior (st : ConnState) (hc : st.closed = true) :
    (∀ now method params timeout,
      sendRequest st now method params timeout
        = (st, [.sendThrow .connectionClosed])) ∧
    (∀ method params, sendNotification st method params = (st, [])) ∧
    (∀ i result, sendResponse st i result = (st, [])) ∧
    (∀ i code message, sendError st i code message = (st, [])) := by
  refine ⟨?_, ?_, ?_, ?_⟩ <;> intros <;>
    simp [sendRequest, sendNotification, sendResponse, sendError, hc]

def c9State : ConnState :=
  { ConnState.init with
    nextId := 4,
    closed := true }

/-- Witness for C9 on a concrete closed connection with id counter at 4. -/
theorem C9_closed_send_behavior_witness :
    sendRequest c9State 0 "ping" none none
      = (c9State, [.sendThrow .connectionClosed]) ∧
    sendNotification c9State "ping" none = (c9State, []) ∧
    sendResponse c9State (.num 1) .null = (c9State, []) ∧
    sendError c9State (.num 1) (-32000) "oops" = (c9State, []) :=
  ⟨(C9_closed_send_behavior c9State rfl).1 0 "ping" none none,
   (C9_closed_send_behavior c9State rfl).2.1 "ping" none,
   (C9_closed_send_behavior c9State rfl).2.2.1 (.num 1) .null,
   (C9_closed_send_behavior c9State rfl).2.2.2 (.num 1) (-32000) "oops"⟩

/-- C10: correlation is by the string rendering of the id — `sendRequest`
keys the pending table by `String(id)` of the numeric id it allocates, the
rendering of the number `n` and of the string `"n"` coincide, and a response
whose id is the string `"n"` completes the call registered under the numeric
id `n`. -/
theorem C10_string_id_correlates (st : ConnState) (n cid : Nat)
    (fields : List (String × Json)) (v : Json)
    (hp : lookupPending st.pending (jsNatString n) = some cid)
    (hid : lookupField fields "id" = some (.str (jsNatString n)))
    (hres : lookupField fields "result" = some v)
    (herr : lookupField fields "error" = none) :
    (routeResponse st fields).2 = [.resolveCall cid (some v)] ∧
    (∀ k : Nat, jsString (.num (k : Int)) = jsNatString k) ∧
    (∀ st' : ConnState, ∀ now method params timeout, st'.closed = false →
      (sendRequest st' now method params timeout).1.pending
        = setPending st'.pending (jsNatString st'.nextId) st'.nextId) := by
  refine ⟨?_, ?_, ?_⟩
  · have hkey : respKey fields = jsNatString n := by simp [respKey, hid, jsString]
    rw [routeResponse, hkey]
    simp [hp, herr, hres]
  · intro k
    simp [jsString, jsIntString]
  · intro st' now method params timeout hc
    simp [sendRequest, hc]

def c10State : ConnState :=
  { ConnState.init with
    nextId := 13,
    pending := [("12", 12)] }

/-- Witness for C10: the pending call registered under numeric id 12 is
completed by a response with the string id `"12"`. -/
theorem C10_string_id_correlates_witness :
    (routeResponse c10State [("id", .str "12"), ("result", .bool true)]).2
      = [.resolveCall 12 (some (.bool true))] ∧
    jsString (.num 12) = jsNatString 12 :=
  ⟨(C10_string_id_correlates c10State 12 12
      [("id", .str "12"), ("result", .bool true)] (.bool true)
      rfl rfl rfl rfl).1,
   (C10_string_id_correlates c10State 12 12
      [("id", .str "12"), ("result", .bool true)] (.bool true)
      rfl rfl rfl rfl).2.1 12⟩

/-- C4: the first close trigger rejects every pending call and then every
blocked waiter with `ConnectionClosed`, exactly one rejection per entry, and
clears both collections, setting the closed flag; the explicit `close()`
performs the same flush and then releases the transport; any further trigger
observes the closed flag and does nothing. -/
theorem C4_close_flushes_all (st : ConnState) (hopen : st.closed = false) :
    (handleClose st).2
      = st.pending.map (fun p => Effect.rejectCall p.2 .connectionClosed) ++
        (st.incomingWaiters.map (fun w => Effect.rejectWaiter w .connectionClosed) ++
          [.emitClose]) ∧
    (handleClose st).1.pending = [] ∧
    (handleClose st).1.incomingWaiters = [] ∧
    (handleClose st).1.closed = true ∧
    (close st).2 = (handleClose st).2 ++ [.closeReader, .destroyWriter] ∧
    (∀ st' : ConnState, st'.closed = true →
      handleClose st' = (st', []) ∧ close st' = (st', [])) := by
  refine ⟨by simp [handleClose, hopen], by simp [handleClose, hopen],
    by simp [handleClose, hopen], by simp [handleClose, hopen],
    by simp [close, hopen], ?_⟩
  intro st' hc
  exact ⟨by simp [handleClose, hc], by simp [close, hc]⟩

def c4State : ConnState :=
  { ConnState.init with
    nextId := 3,
    pending := [("1", 1), ("2", 2)],
    incomingWaiters := [5, 6] }

/-- Witness for C4: two pending calls and two waiters are all rejected
exactly once, in table order then waiter order, and both collections clear;
a repeated close is a no-op. -/
theorem C4_close_flushes_all_witness :
    (handleClose c4State).2
      = [.rejectCall 1 .connectionClosed, .rejectCall 2 .connectionClosed,
         .rejectWaiter 5 .connectionClosed, .rejectWaiter 6 .connectionClosed,
         .emitClose] ∧
    (handleClose c4State).1.pending = [] ∧
    (handleClose c4State).1.incomingWaiters = [] ∧
    handleClose { c4State with closed := true }
      = ({ c4State with closed := true }, []) :=
  ⟨((C4_close_flushes_all c4State rfl).1).trans (by rfl),
   (C4_close_flushes_all c4State rfl).2.1,
   (C4_close_flushes_all c4State rfl).2.2.1,
   ((C4_close_flushes_all c4State rfl).2.2.2.2.2 _ rfl).1⟩

def c8State : ConnState :=
  { ConnState.init with
    nextId := 2,
    pending := [("1", 1)],
    incomingWaiters := [7] }

/-- C8 counterexample: on an explicit `close()` of an open connection with
one pending call and one waiter, the close observers are notified
(`emitClose`) strictly BEFORE the reader and writer are released — the
claimed order, release at step (4) and only then notification at step (5),
does not hold on this input. -/
theorem C8_teardown_order_counterexample :
    (close c8State).2
      = [.rejectCall 1 .connectionClosed, .rejectWaiter 7 .connectionClosed,
         .emitClose, .closeReader, .destroyWriter] ∧
    List.findIdx (fun e => match e with | .emitClose => true | _ => false)
        (close c8State).2
      < List.findIdx (fun e => match e with | .closeReader => true | _ => false)
        (close c8State).2 := by
  refine ⟨by rfl, by decide⟩

/-- C8 (amended): on the first trigger the coordinator performs, in order:
(1) set the closed flag, (2) reject every remaining pending call with
`ConnectionClosed` (each wrapped reject cancelling that call's timer) and
clear the table, (3) reject every remaining waiter and clear the waiter
list, (4) notify close observers — and only after all of that does the
explicit `close()` path release the readline interface and destroy the
writer; the end-of-stream path stops after notifying. -/
theorem C8_teardown_order_amended (st : ConnState) (hopen : st.closed = false) :
    close st
      = ({ st with
            closed := true,
            pending := [],
            timers := st.timers.filter
              (fun r => !(st.pending.any (fun p => p.2 == r.callId))),
            incomingWaiters := [] },
         (st.pending.map (fun p => Effect.rejectCall p.2 .connectionClosed) ++
           (st.incomingWaiters.map (fun w => Effect.rejectWaiter w .connectionClosed) ++
             [.emitClose])) ++ [.closeReader, .destroyWriter]) ∧
    handleClose st
      = ({ st with
            closed := true,
            pending := [],
            timers := st.timers.filter
              (fun r => !(st.pending.any (fun p => p.2 == r.callId))),
            incomingWaiters := [] },
         st.pending.map (fun p => Effect.rejectCall p.2 .connectionClosed) ++
           (st.incomingWaiters.map (fun w => Effect.rejectWaiter w .connectionClosed) ++
             [.emitClose])) := by
  constructor
  · simp [close, handleClose, hopen]
  · simp [handleClose, hopen]

/-- Witness for the amended C8 at the same concrete connection. -/
theorem C8_teardown_order_amended_witness :
    close c8State
      = ({ c8State with
            closed := true,
            pending := [],
            incomingWaiters := [] },
         [.rejectCall 1 .connectionClosed, .rejectWaiter 7 .connectionClosed,
          .emitClose, .closeReader, .destroyWriter]) :=
  ((C8_teardown_order_amended c8State rfl).1).trans (by rfl)

/-- C3: every classified Request/Notification is broadcast exactly once to
the subscribers of its category and delivered to exactly one `nextMessage`
caller — handed to the oldest blocked waiter when one exists, otherwise
appended to the FIFO queue — and the messages received by `nextMessage`
callers, followed by the still-queued remainder, are exactly the classified
messages in classification order. -/
theorem C3_dual_delivery_order (es : List (Nat × Event)) :
    emittedOf (runT ConnState.init es).2 = classifiedOf es ∧
    pullDelivered (runT ConnState.init es).2 ++
        (runT ConnState.init es).1.incomingQueue
      = classifiedOf es ∧
    (∀ (st : ConnState) (m : IncomingMessage), routeIncoming st m
        = (match st.incomingWaiters with
           | [] => ({ st with incomingQueue := st.incomingQueue ++ [m] },
               [broadcastOf m])
           | w :: rest => ({ st with incomingWaiters := rest },
               [broadcastOf m, .resolveWaiter w m]))) := by
  obtain ⟨h1, h2, _⟩ := runT_order es ConnState.init (fun _ => rfl)
  refine ⟨h1, by simpa using h2, ?_⟩
  intro st m
  cases hw : st.incomingWaiters <;> simp [routeIncoming, hw]

/-- C1: over any run of the connection from a fresh state, for every
correlation id: the number of completions of that id's future plus its
remaining pending entries equals 1 exactly when the id has been allocated
by `sendRequest` (so no future completes twice); once the connection is
closed every allocated id has completed exactly once (none is left
incomplete); and each completion path first checks for the pending entry
and is a no-op when it is absent — a response with no matching entry, a
fired deadline whose entry is gone, and a repeated close all do nothing. -/
theorem C1_pending_exactly_once (es : List (Nat × Event)) (id : Nat) :
    completionsFor id (runT ConnState.init es).2 +
        countP (runT ConnState.init es).1 id
      = allocCount 1 (runT ConnState.init es).1.nextId id ∧
    ((runT ConnState.init es).1.closed = true →
      completionsFor id (runT ConnState.init es).2
        = allocCount 1 (runT ConnState.init es).1.nextId id) ∧
    (∀ (st : ConnState) fields, lookupPending st.pending (respKey fields) = none →
      routeResponse st fields = (st, [])) ∧
    (∀ (st : ConnState) c rec, st.timers.find? (fun r => r.callId = c) = some rec →
      lookupPending st.pending (jsNatString c) = none →
      (timerFire st c).2 = []) ∧
    (∀ st : ConnState, st.closed = true → handleClose st = (st, [])) := by
  obtain ⟨hwf, hmono, heq⟩ := runT_spec es ConnState.init wf_init
  have hmain : completionsFor id (runT ConnState.init es).2 +
      countP (runT ConnState.init es).1 id
      = allocCount 1 (runT ConnState.init es).1.nextId id := by
    have h1 := heq id
    have h2 : countP ConnState.init id = 0 := rfl
    have h3 : allocCount ConnState.init.nextId (runT ConnState.init es).1.nextId id
        = allocCount 1 (runT ConnState.init es).1.nextId id := rfl
    rw [h2, h3] at h1
    omega
  refine ⟨hmain, ?_, ?_, ?_, ?_⟩
  · intro hcl
    have hp0 : (runT ConnState.init es).1.pending = [] := hwf.closed_pending hcl
    have h4 : countP (runT ConnState.init es).1 id = 0 := by
      rw [countP, hp0]
      rfl
    omega
  · intro st fields hl
    simp [routeResponse, hl]
  · intro st c rec hf hl
    simp [timerFire, hf, hl]
  · intro st hc
    simp [handleClose, hc]

def c1Demo : List (Nat × Event) :=
  [(0, .evSendRequest "ping" none (some 5)), (1, .evClose)]

def c1Closed : ConnState :=
  { ConnState.init with
    closed := true }

/-- Witness for C1: one request then an explicit close — the single
allocated id completes exactly once, and the concrete no-op checks hold. -/
theorem C1_pending_exactly_once_witness :
    completionsFor 1 (runT ConnState.init c1Demo).2 = 1 ∧
    (runT ConnState.init c1Demo).1.closed = true ∧
    routeResponse ConnState.init [("id", .num 9), ("result", .null)]
      = (ConnState.init, []) ∧
    handleClose c1Closed = (c1Closed, []) :=
  ⟨((C1_pending_exactly_once c1Demo 1).2.1 rfl).trans (by rfl),
   rfl,
   (C1_pending_exactly_once c1Demo 1).2.2.1 ConnState.init
     [("id", .num 9), ("result", .null)] rfl,
   (C1_pending_exactly_once c1Demo 1).2.2.2.2 c1Closed rfl⟩

/-- C2: in any valid trace (timers fire only while armed and never before
`armedAt + timeoutMs`, the `setTimeout` contract), when the deadline timer of
a call fires while its pending entry is still present — that is, no matching
response has arrived and the connection has not closed — the call's future is
rejected with the locally-generated timeout error `RpcError(-32000, …)`
naming the method and the effective timeout, at elapsed time at least the
effective timeout; over the whole trace that call completes exactly once, so
a matching response arriving after the timeout fired is ignored; and the
timer armed by an open `sendRequest` with positive effective timeout records
exactly that timeout, the arming instant and the method. -/
theorem C2_timeout_rejects (es1 : List (Nat × Event)) (t : Nat) (rec : TimerRec)
    (es2 : List (Nat × Event)) (cid : Nat)
    (hv : validB ConnState.init 0 (es1 ++ (t, .evTimerFire rec.callId) :: es2) = true)
    (hrec : (runT ConnState.init es1).1.timers.find?
        (fun r => r.callId = rec.callId) = some rec)
    (hpend : lookupPending (runT ConnState.init es1).1.pending
        (jsNatString rec.callId) = some cid) :
    (stepT (runT ConnState.init es1).1 t (.evTimerFire rec.callId)).2
      = [.rejectCall cid (.rpcError (some (.num (-32000)))
          (some (.str ("Request timed out after " ++ toString rec.timeoutMs ++
            "ms: " ++ rec.method))))] ∧
    rec.armedAt + rec.timeoutMs ≤ t ∧
    completionsFor cid
        (runT ConnState.init (es1 ++ (t, .evTimerFire rec.callId) :: es2)).2 = 1 ∧
    (∀ (st : ConnState) (now : Nat) method params timeout, st.closed = false →
      timeout.getD st.requestTimeout > 0 →
      (sendRequest st now method params timeout).1.timers
        = st.timers ++
          [⟨st.nextId, timeout.getD st.requestTimeout, now, method⟩]) := by
  have hstep : (stepT (runT ConnState.init es1).1 t (.evTimerFire rec.callId)).2
      = [.rejectCall cid (.rpcError (some (.num (-32000)))
          (some (.str ("Request timed out after " ++ toString rec.timeoutMs ++
            "ms: " ++ rec.method))))] := by
    simp [stepT, timerFire, hrec, hpend]
  have htime : rec.armedAt + rec.timeoutMs ≤ t := by
    obtain ⟨now2, hv2⟩ := validB_split es1 ConnState.init 0 _ hv
    have hcond : ((now2 ≤ t : Bool) && (match (runT ConnState.init es1).1.timers.find?
          (fun r => r.callId = rec.callId) with
        | some r => (r.armedAt + r.timeoutMs ≤ t : Bool)
        | none => false)) = true :=
      (Bool.and_eq_true_iff.mp hv2).1
    rw [hrec] at hcond
    have h2 := (Bool.and_eq_true_iff.mp hcond).2
    exact of_decide_eq_true h2
  refine ⟨hstep, htime, ?_, ?_⟩
  · obtain ⟨hwf1, hmono1, heq1⟩ := runT_spec es1 ConnState.init wf_init
    have hcP : 1 ≤ countP (runT ConnState.init es1).1 cid := cntId_pos hpend
    have h1 := heq1 cid
    have hle := allocCount_le_one 1 (runT ConnState.init es1).1.nextId cid
    have h2 : countP ConnState.init cid = 0 := rfl
    have h3 : allocCount ConnState.init.nextId (runT ConnState.init es1).1.nextId cid
        = allocCount 1 (runT ConnState.init es1).1.nextId cid := rfl
    rw [h2, h3] at h1
    have hcomp1 : completionsFor cid (runT ConnState.init es1).2 = 0 := by omega
    have hcountP1 : countP (runT ConnState.init es1).1 cid = 1 := by omega
    have halloc1 : allocCount 1 (runT ConnState.init es1).1.nextId cid = 1 := by omega
    have hrange : cid < (runT ConnState.init es1).1.nextId := by
      by_contra hr
      rw [allocCount_eq_zero_of_ge (by omega)] at halloc1
      omega
    obtain ⟨hwf2, hn2, hcl2, heqF⟩ :=
      timerFire_spec (runT ConnState.init es1).1 hwf1 rec.callId
    have hcompStep : completionsFor cid
        (timerFire (runT ConnState.init es1).1 rec.callId).2 = 1 := by
      have hs : (timerFire (runT ConnState.init es1).1 rec.callId).2
          = [.rejectCall cid (.rpcError (some (.num (-32000)))
              (some (.str ("Request timed out after " ++ toString rec.timeoutMs ++
                "ms: " ++ rec.method))))] := hstep
      rw [hs, completionsFor_reject]
      simp
    have hcountP2 : countP (timerFire (runT ConnState.init es1).1 rec.callId).1 cid
        = 0 := by
      have := heqF cid
      omega
    obtain ⟨hwf3, hmono3, heq3⟩ :=
      runT_spec es2 (timerFire (runT ConnState.init es1).1 rec.callId).1 hwf2
    have hallocSuffix : allocCount
        (timerFire (runT ConnState.init es1).1 rec.callId).1.nextId
        (runT (timerFire (runT ConnState.init es1).1 rec.callId).1 es2).1.nextId cid
        = 0 := by
      apply allocCount_eq_zero_of_lt
      rw [hn2]
      exact hrange
    have hcomp3 : completionsFor cid
        (runT (timerFire (runT ConnState.init es1).1 rec.callId).1 es2).2 = 0 := by
      have := heq3 cid
      rw [hallocSuffix, hcountP2] at this
      omega
    have hsplit : (runT ConnState.init
        (es1 ++ (t, Event.evTimerFire rec.callId) :: es2)).2
        = (runT ConnState.init es1).2 ++
          ((stepT (runT ConnState.init es1).1 t (.evTimerFire rec.callId)).2 ++
            (runT (stepT (runT ConnState.init es1).1 t
              (.evTimerFire rec.callId)).1 es2).2) := by
      rw [runT_append es1 ConnState.init ((t, Event.evTimerFire rec.callId) :: es2)]
      simp [runT]
    rw [hsplit, completionsFor_append, completionsFor_append, hcomp1]
    have hstepIsFire : stepT (runT ConnState.init es1).1 t (.evTimerFire rec.callId)
        = timerFire (runT ConnState.init es1).1 rec.callId := rfl
    rw [hstepIsFire, hcompStep, hcomp3]
  · intro st now method params timeout hc hpos
    simp [sendRequest, hc, hpos]

def c2Es1 : List (Nat × Event) := [(0, .evSendRequest "ping" none (some 5))]

def c2Rec : TimerRec := ⟨1, 5, 0, "ping"⟩

def c2Es2 : List (Nat × Event) :=
  [(7, .evLine (some (.obj [("id", .num 1), ("result", .num 42)])))]

/-- Witness for C2: a request with timeout 5 ms, its timer firing at 5 ms, a
matching response arriving afterwards — the future completes exactly once
with the timeout rejection, and the late response is ignored. -/
theorem C2_timeout_rejects_witness :
    (stepT (runT ConnState.init c2Es1).1 5 (.evTimerFire c2Rec.callId)).2
      = [.rejectCall 1 (.rpcError (some (.num (-32000)))
          (some (.str "Request timed out after 5ms: ping")))] ∧
    c2Rec.armedAt + c2Rec.timeoutMs ≤ 5 ∧
    completionsFor 1
        (runT ConnState.init (c2Es1 ++ (5, .evTimerFire c2Rec.callId) :: c2Es2)).2
      = 1 :=
  ⟨((C2_timeout_rejects c2Es1 5 c2Rec c2Es2 1 (by rfl) (by rfl) (by rfl)).1).trans
     (by rfl),
   (C2_timeout_rejects c2Es1 5 c2Rec c2Es2 1 (by rfl) (by rfl) (by rfl)).2.1,
   (C2_timeout_rejects c2Es1 5 c2Rec c2Es2 1 (by rfl) (by rfl) (by rfl)).2.2.1⟩

end Mcpl
